import Mathlib

/-!
Verification of the crop transforms in `pymic/transform/crop.py`
(`CropWithBoundingBox` and `RandomCrop`).

Arrays are embedded shallowly as a shape together with a total data
function on index lists; integers are exact (`ℕ`/`ℤ`), random draws are
explicit parameters constrained to the ranges `random.randint` would
produce, and Python assertion or type errors surface as `none`.

The array utilities from `pymic.util.image_process` and the JSON
round-trip are not part of the source tree; they are modelled from the
spec as noted on each definition.
-/

/-- An N-dimensional array: a shape and a total function giving the value
at each index list.  Only indices componentwise below the shape are
meaningful. -/
structure NDArray where
  shape : List ℕ
  data : List ℕ → ℤ

/-- All valid index lists of a shape, in row-major (C) order. -/
def allIndices : List ℕ → List (List ℕ)
  | [] => [[]]
  | s :: rest => ((List.range s).map (fun i => (allIndices rest).map (fun idx => i :: idx))).flatten

/-- Indices of the nonzero entries of an array, as `np.nonzero` would
enumerate them. -/
def nonzeroIndices (a : NDArray) : List (List ℕ) :=
  (allIndices a.shape).filter (fun idx => a.data idx != 0)

/-- Sum of all entries of an array (`ndarray.sum()`). -/
def ndsum (a : NDArray) : ℤ :=
  ((allIndices a.shape).map a.data).sum

/-- Modelled from the spec: `get_ND_bounding_box` from
`pymic.util.image_process` (not under `src/`), the minimal axis-aligned
box containing all non-zero voxels, returned as per-axis minima and
exclusive maxima so that the box is half-open, matching the spec's
`[crop_min, crop_max)` convention and the full-volume fallback
`bb_max = mask.shape` in `crop.py` line 146.  `none` when the array has
no nonzero entry (NumPy raises on an empty index list). -/
def get_ND_bounding_box (a : NDArray) : Option (List ℕ × List ℕ) :=
  match nonzeroIndices a with
  | [] => none
  | h :: t =>
    some ((List.range a.shape.length).map (fun k => t.foldl (fun m idx => min m (idx.getD k 0)) (h.getD k 0)),
          (List.range a.shape.length).map (fun k => t.foldl (fun m idx => max m (idx.getD k 0)) (h.getD k 0) + 1))

/-- Modelled from the spec: `crop_ND_volume_with_bounding_box` from
`pymic.util.image_process` (not under `src/`): slice the half-open box
`[bb_min, bb_max)` out of the volume.  Output position `idx` holds the
input value at `idx + bb_min`; bounds are taken as nonnegative
in-range indices (negative positions clamp at zero). -/
def crop_ND_volume_with_bounding_box (volume : NDArray) (bb_min bb_max : List ℤ) : NDArray :=
  { shape := List.zipWith (fun bM bm => (bM - bm).toNat) bb_max bb_min,
    data := fun idx => volume.data (List.zipWith (fun (i : ℕ) (bm : ℤ) => ((i : ℤ) + bm).toNat) idx bb_min) }

/-- Membership of an index list in the half-open box `[bb_min, bb_max)`;
`false` when the lengths disagree. -/
def inBox : List ℤ → List ℤ → List ℕ → Bool
  | bm :: bms, bM :: bMs, i :: idx =>
    (decide (bm ≤ (i : ℤ)) && decide ((i : ℤ) < bM)) && inBox bms bMs idx
  | [], [], [] => true
  | _, _, _ => false

/-- Modelled from the spec: `set_ND_volume_roi_with_bounding_box_range`
from `pymic.util.image_process` (not under `src/`): write `sub` into the
half-open box `[bb_min, bb_max)` of `out`, leaving the rest of `out`
unchanged. -/
def set_ND_volume_roi_with_bounding_box_range (out : NDArray) (bb_min bb_max : List ℤ)
    (sub : NDArray) : NDArray :=
  { shape := out.shape,
    data := fun idx =>
      if inBox bb_min bb_max idx then
        sub.data (List.zipWith (fun (i : ℕ) (bm : ℤ) => ((i : ℤ) - bm).toNat) idx bb_min)
      else out.data idx }

/-- `np.zeros(shape)`. -/
def NDArray.zeros (s : List ℕ) : NDArray :=
  { shape := s, data := fun _ => 0 }

/-- The crop geometry triple `(input_shape, crop_min, crop_max)` that the
forward passes serialize. -/
abbrev CropParam := List ℕ × List ℤ × List ℤ

/-- The serialized parameter stored on the sample.  The spec requires the
JSON encoding to round-trip exactly, so the triple is kept structurally;
a sample may carry one serialized string or a list of them. -/
inductive ParamStore where
  | single (p : CropParam)
  | plural (ps : List CropParam)
deriving DecidableEq

/-- A prediction: one array or a sequence of arrays. -/
inductive Predict where
  | single (a : NDArray)
  | plural (items : List NDArray)

/-- The sample mapping: the image, optional label and weight arrays, the
per-transform stored crop parameters, and an optional prediction. -/
structure Sample where
  image : NDArray
  label : Option NDArray := none
  weight : Option NDArray := none
  cwbParam : Option ParamStore := none
  rcParam : Option ParamStore := none
  predict : Option Predict := none

/-- Evaluation of a Python list comprehension `[f(i) for i in range(n)]`
whose body may fail (an out-of-range index raises); `none` when any
element fails, starting the count at `i`. -/
def seqCompFrom (f : ℕ → Option α) : ℕ → ℕ → Option (List α)
  | _, 0 => some []
  | i, k + 1 =>
    match f i, seqCompFrom f (i + 1) k with
    | some x, some xs => some (x :: xs)
    | _, _ => none

/-- `[f(i) for i in range(n)]` with failing bodies propagating to `none`. -/
def seqComp (n : ℕ) (f : ℕ → Option α) : Option (List α) :=
  seqCompFrom f 0 n

/-- Configuration of `CropWithBoundingBox` (`crop.py` lines 17-27). -/
structure CropWithBoundingBox where
  start : Option (List ℤ)
  output_size : Option (List ℕ)
  inverse : Bool

/-- `crop.py` lines 35-52: the spatial crop bounds of
`CropWithBoundingBox.__call__`, from the configured `start` and
`output_size` and the spatial bounding box `(bb_min, bb_max)`.  In the
`start`-given, `output_size`-none branch line 48 evaluates
`len(self.output_size)` with `output_size = None`, a `TypeError`, so that
branch is `none`. -/
def CropWithBoundingBox.spatialBounds (t : CropWithBoundingBox) (input_dim : ℕ)
    (bb_min bb_max : List ℕ) : Option (List ℤ × List ℤ) :=
  match t.start with
  | none =>
    match t.output_size with
    | none => some (bb_min.map (fun (b : ℕ) => (b : ℤ)), bb_max.map (fun (b : ℕ) => (b : ℤ)))
    | some os =>
      if os.length = input_dim then do
        let cm1 ← seqComp input_dim (fun i => do
          let b ← bb_min[i]?
          let bb ← bb_max[i]?
          let o ← os[i]?
          pure ((((b + bb + 1) / 2 : ℕ) : ℤ) - ((o / 2 : ℕ) : ℤ)))
        let cm2 ← seqComp input_dim (fun i => do
          let c ← cm1[i]?
          pure (max 0 c))
        let cM ← seqComp input_dim (fun i => do
          let c ← cm2[i]?
          let o ← os[i]?
          pure (c + (o : ℤ)))
        pure (cm2, cM)
      else none
  | some st =>
    if st.length = input_dim then
      match t.output_size with
      | none => none
      | some os => do
        let cM ← seqComp input_dim (fun i => do
          let c ← st[i]?
          let o ← os[i]?
          pure (c + (o : ℤ)))
        pure (st, cM)
    else none

/-- `crop.py` lines 60-69 (also 165-174): crop the label or weight array
when its spatial shape matches the image's, first overwriting
`crop_max[0]` in place with the array's own channel count; returns the
(possibly) cropped array and the mutated `crop_max`. -/
def cropLabelWeight (arr? : Option NDArray) (imageShape : List ℕ)
    (crop_min crop_max : List ℤ) : Option NDArray × List ℤ :=
  match arr? with
  | none => (none, crop_max)
  | some arr =>
    if arr.shape.tail = imageShape.tail then
      let cm2 := crop_max.set 0 ((arr.shape.headD 0 : ℤ))
      (some (crop_ND_volume_with_bounding_box arr crop_min cm2), cm2)
    else (some arr, crop_max)

/-- `crop.py` lines 29-70: the forward pass of `CropWithBoundingBox`. -/
def CropWithBoundingBox.call (t : CropWithBoundingBox) (sample : Sample) : Option Sample := do
  let image := sample.image
  let input_shape := image.shape
  let input_dim := input_shape.length - 1
  let bb ← get_ND_bounding_box image
  let sb ← t.spatialBounds input_dim bb.1.tail bb.2.tail
  let crop_min := 0 :: sb.1
  let crop_max := (input_shape.take 1).map (fun (c : ℕ) => (c : ℤ)) ++ sb.2
  let param := ParamStore.single (input_shape, crop_min, crop_max)
  let image_t := crop_ND_volume_with_bounding_box image crop_min crop_max
  let lw := cropLabelWeight sample.label input_shape crop_min crop_max
  let wres := cropLabelWeight sample.weight input_shape crop_min lw.2
  pure { sample with
    image := image_t, label := lw.1, weight := wres.1, cwbParam := some param }

/-- `crop.py` lines 90-95 (and 98-103): one step of the inverse
reconstruction: allocate a zero array of the original spatial shape with
the prediction's batch and channel extents, override the channel entries
of the bounds, and write the prediction into the box.  Returns the
mutated `origin_shape`, `crop_min`, `crop_max` and the reconstruction. -/
def reconstructOne (origin_shape : List ℕ) (crop_min crop_max : List ℤ)
    (pi : NDArray) : List ℕ × List ℤ × List ℤ × NDArray :=
  let osh := pi.shape.take 2 ++ origin_shape.tail
  let cmin := 0 :: 0 :: crop_min.tail
  let cmax := (pi.shape.take 2).map (fun (c : ℕ) => (c : ℤ)) ++ crop_max.tail
  (osh, cmin, cmax, set_ND_volume_roi_with_bounding_box_range (NDArray.zeros osh) cmin cmax pi)

/-- `crop.py` lines 72-106: the inverse of `CropWithBoundingBox`; accepts
the stored parameter as one serialized triple or a list of them (only
element 0 is parsed), handles a single prediction or a list of
predictions (the loop mutates the shared geometry lists in place, which
the fold reproduces). -/
def CropWithBoundingBox.inverse_transform_for_prediction (_t : CropWithBoundingBox)
    (sample : Sample) : Option Sample := do
  let stored ← sample.cwbParam
  let params ← match stored with
    | ParamStore.plural l => l[0]?
    | ParamStore.single p => pure p
  let predict ← sample.predict
  match predict with
  | Predict.plural items =>
    let st := items.foldl (fun acc pi =>
      let r := reconstructOne acc.1 acc.2.1 acc.2.2.1 pi
      (r.1, r.2.1, r.2.2.1, acc.2.2.2 ++ [r.2.2.2]))
      (params.1, params.2.1, params.2.2, [])
    pure { sample with predict := some (Predict.plural st.2.2.2) }
  | Predict.single p =>
    let r := reconstructOne params.1 params.2.1 params.2.2 p
    pure { sample with predict := some (Predict.single r.2.2.2) }

/-- Configuration of `RandomCrop` (`crop.py` lines 111-128) after the
constructor's `isinstance` checks have passed. -/
structure RandomCrop where
  output_size : List ℕ
  fg_focus : Bool
  fg_ratio : ℚ
  mask_label : Option (List ℤ)
  inverse : Bool

/-- A configuration value as found in the params dictionary: Python
`None`, a list or tuple, or some other (non-sequence) value. -/
inductive PyParam (α : Type) where
  | pnone
  | pseq (xs : List α)
  | pscalar (x : α)

/-- `crop.py` lines 111-128: the `RandomCrop` constructor; asserts that
`output_size` is a list or tuple, and that `mask_label`, when provided,
is a list or tuple.  A failed assertion gives `none`. -/
def mkRandomCrop (os : PyParam ℕ) (fg : Bool) (ratio : ℚ) (ml : PyParam ℤ)
    (inv : Bool) : Option RandomCrop :=
  match os with
  | PyParam.pseq xs =>
    match ml with
    | PyParam.pnone =>
      some { output_size := xs, fg_focus := fg, fg_ratio := ratio,
             mask_label := none, inverse := inv }
    | PyParam.pseq ys =>
      some { output_size := xs, fg_focus := fg, fg_ratio := ratio,
             mask_label := some ys, inverse := inv }
    | PyParam.pscalar _ => none
  | _ => none

/-- `crop.py` lines 141-143: the binary foreground mask, the pointwise
maximum of `label == v` over the configured mask labels. -/
def fgMask (label : NDArray) (mask_label : List ℤ) : NDArray :=
  { shape := label.shape,
    data := fun idx =>
      mask_label.foldl (fun m v => max m (if label.data idx = v then 1 else 0)) 0 }

/-- `crop.py` lines 136-154: the spatial `crop_min` of
`RandomCrop.__call__`.  `draws1` are the outcomes of the per-axis
`random.randint(0, margin)` calls, `r` the outcome of `random.random()`,
and `draws2` the per-axis `random.randint(bb_min, bb_max)` calls of the
foreground branch; a draw outside its `randint` range (in particular any
draw against an empty range, which `randint` rejects) gives `none`. -/
def RandomCrop.spatialCropMin (t : RandomCrop) (input_shape : List ℕ) (input_dim : ℕ)
    (label? : Option NDArray) (draws1 : List ℤ) (r : ℚ) (draws2 : List ℤ) :
    Option (List ℤ) := do
  let crop_margin ← seqComp input_dim (fun i => do
    let s ← input_shape[i + 1]?
    let o ← t.output_size[i]?
    pure ((s : ℤ) - (o : ℤ)))
  let crop_min0 ← seqComp input_dim (fun i => do
    let m ← crop_margin[i]?
    let d ← draws1[i]?
    if 0 ≤ d ∧ d ≤ m then pure d else none)
  if t.fg_focus = true ∧ r < t.fg_ratio then do
    let label ← label?
    let mls ← t.mask_label
    let mask := fgMask label mls
    let bb ←
      if ndsum mask = 0 then
        pure (List.replicate (input_dim + 1) 0, mask.shape)
      else get_ND_bounding_box mask
    let bb_min := bb.1.tail
    let bb_max := bb.2.tail
    let cm1 ← seqComp input_dim (fun i => do
      let b ← bb_min[i]?
      let bb2 ← bb_max[i]?
      let o ← t.output_size[i]?
      let d ← draws2[i]?
      if (b : ℤ) ≤ d ∧ d ≤ (bb2 : ℤ) then pure (d - ((o / 2 : ℕ) : ℤ)) else none)
    let cm2 := cm1.map (fun c => max 0 c)
    let cm3 ← seqComp input_dim (fun i => do
      let c ← cm2[i]?
      let s ← input_shape[i + 1]?
      let o ← t.output_size[i]?
      pure (min c ((s : ℤ) - (o : ℤ))))
    pure cm3
  else
    pure crop_min0

/-- `crop.py` lines 130-175: the forward pass of `RandomCrop`. -/
def RandomCrop.call (t : RandomCrop) (draws1 : List ℤ) (r : ℚ) (draws2 : List ℤ)
    (sample : Sample) : Option Sample := do
  let image := sample.image
  let input_shape := image.shape
  let input_dim := input_shape.length - 1
  if input_dim = t.output_size.length then do
    let cmSp ← t.spatialCropMin input_shape input_dim sample.label draws1 r draws2
    let cMSp ← seqComp input_dim (fun i => do
      let c ← cmSp[i]?
      let o ← t.output_size[i]?
      pure (c + (o : ℤ)))
    let crop_min := 0 :: cmSp
    let crop_max := (input_shape.take 1).map (fun (c : ℕ) => (c : ℤ)) ++ cMSp
    let param := ParamStore.single (input_shape, crop_min, crop_max)
    let image_t := crop_ND_volume_with_bounding_box image crop_min crop_max
    let lw := cropLabelWeight sample.label input_shape crop_min crop_max
    let wres := cropLabelWeight sample.weight input_shape crop_min lw.2
    pure { sample with
      image := image_t, label := lw.1, weight := wres.1, rcParam := some param }
  else none

/-- `crop.py` lines 177-200: the inverse of `RandomCrop`; like the other
inverse but restricted to a single prediction array (a list of
predictions has no `shape` attribute and raises). -/
def RandomCrop.inverse_transform_for_prediction (_t : RandomCrop) (sample : Sample) :
    Option Sample := do
  let stored ← sample.rcParam
  let params ← match stored with
    | ParamStore.plural l => l[0]?
    | ParamStore.single p => pure p
  let predict ← sample.predict
  match predict with
  | Predict.plural _ => none
  | Predict.single p =>
    let r := reconstructOne params.1 params.2.1 params.2.2 p
    pure { sample with predict := some (Predict.single r.2.2.2) }

/-- The cropped image with a batch axis prepended, the synthetic
prediction of the round-trip property. -/
def withBatch (a : NDArray) : NDArray :=
  { shape := 1 :: a.shape, data := fun idx => a.data idx.tail }

/-- Replace the prediction of a sample by a single array. -/
def setSinglePredict (s : Sample) (a : NDArray) : Sample :=
  { s with predict := some (Predict.single a) }

/-! ### Helper lemmas about the comprehension evaluator -/

theorem seqCompFrom_eq_some (f : ℕ → Option α) (g : ℕ → α) :
    ∀ (k i : ℕ), (∀ j, j < k → f (i + j) = some (g (i + j))) →
      seqCompFrom f i k = some ((List.range k).map (fun j => g (i + j))) := by
  intro k
  induction k with
  | zero => intro i _; rfl
  | succ k ih =>
    intro i h
    have h0 : f i = some (g i) := by simpa using h 0 k.succ_pos
    have h1 := ih (i + 1) (fun j hj => by
      have := h (1 + j) (by omega)
      have e : i + (1 + j) = i + 1 + j := by omega
      rw [e] at this
      exact this)
    simp only [seqCompFrom, h0, h1, Option.some.injEq]
    rw [List.range_succ_eq_map]
    simp only [List.map_cons, List.map_map, Nat.add_zero, Function.comp]
    have e2 : (fun j => g (i + 1 + j)) = (fun j => g (i + Nat.succ j)) := by
      funext j
      congr 1
      omega
    rw [e2]
    rfl

theorem seqComp_eq_some (n : ℕ) (f : ℕ → Option α) (g : ℕ → α)
    (h : ∀ j, j < n → f j = some (g j)) :
    seqComp n f = some ((List.range n).map g) := by
  have := seqCompFrom_eq_some f g n 0 (fun j hj => by simpa using h j hj)
  simpa [seqComp] using this

theorem seqCompFrom_some_inv (f : ℕ → Option α) :
    ∀ (k i : ℕ) (l : List α), seqCompFrom f i k = some l →
      l.length = k ∧ ∀ j, j < k → f (i + j) = l[j]? := by
  intro k
  induction k with
  | zero =>
    intro i l h
    simp only [seqCompFrom] at h
    injection h with h
    subst h
    exact ⟨rfl, fun j hj => absurd hj (by omega)⟩
  | succ k ih =>
    intro i l h
    simp only [seqCompFrom] at h
    split at h
    · next x xs hf hr =>
      injection h with h
      subst h
      obtain ⟨hlen, hget⟩ := ih (i + 1) xs hr
      refine ⟨by simp [hlen], ?_⟩
      intro j hj
      cases j with
      | zero => simpa using hf
      | succ j' =>
        have := hget j' (by omega)
        have e : i + (j' + 1) = i + 1 + j' := by omega
        rw [e]
        simpa using this
    · exact absurd h (by simp)

theorem seqComp_some_inv {n : ℕ} {f : ℕ → Option α} {l : List α}
    (h : seqComp n f = some l) :
    l.length = n ∧ ∀ j, j < n → f j = l[j]? := by
  obtain ⟨hlen, hget⟩ := seqCompFrom_some_inv f n 0 l h
  exact ⟨hlen, fun j hj => by simpa using hget j hj⟩

theorem seqComp_eq_none (n : ℕ) (f : ℕ → Option α) (j : ℕ) (hj : j < n)
    (hf : f j = none) : seqComp n f = none := by
  cases h : seqComp n f with
  | none => rfl
  | some l =>
    obtain ⟨hlen, hget⟩ := seqComp_some_inv h
    have h1 := hget j hj
    rw [hf, List.getElem?_eq_getElem (by omega)] at h1
    exact absurd h1 (by simp)

/-! ### Helper lemmas about indexing and index enumeration -/

theorem getElem?_eq_some_getD {l : List α} {i : ℕ} (h : i < l.length) (d : α) :
    l[i]? = some (l.getD i d) := by
  rw [List.getElem?_eq_getElem h, List.getD_eq_getElem?_getD, List.getElem?_eq_getElem h]
  rfl

theorem mem_allIndices {s : List ℕ} {idx : List ℕ} :
    idx ∈ allIndices s ↔ idx.length = s.length ∧
      ∀ k, k < s.length → idx.getD k 0 < s.getD k 0 := by
  induction s generalizing idx with
  | nil =>
    simp only [allIndices, List.mem_singleton, List.length_nil]
    constructor
    · rintro rfl; exact ⟨rfl, fun k hk => absurd hk (by omega)⟩
    · rintro ⟨hlen, -⟩; exact List.length_eq_zero.mp hlen
  | cons a rest ih =>
    simp only [allIndices, List.mem_flatten, List.mem_map]
    constructor
    · rintro ⟨l, ⟨i, hi, rfl⟩, hidx⟩
      obtain ⟨tl, htl, rfl⟩ := List.mem_map.mp hidx
      obtain ⟨hlen, hcomp⟩ := ih.mp htl
      refine ⟨by simp [hlen], ?_⟩
      intro k hk
      cases k with
      | zero => simpa using List.mem_range.mp hi
      | succ k' =>
        simp only [List.getD_cons_succ]
        exact hcomp k' (by simpa using hk)
    · rintro ⟨hlen, hcomp⟩
      cases idx with
      | nil => simp at hlen
      | cons i tl =>
        refine ⟨(allIndices rest).map (fun x => i :: x), ⟨i, ?_, rfl⟩, ?_⟩
        · exact List.mem_range.mpr (by simpa using hcomp 0 (by simp))
        · refine List.mem_map.mpr ⟨tl, ih.mpr ⟨by simpa using hlen, ?_⟩, rfl⟩
          intro k hk
          have := hcomp (k + 1) (by simpa using hk)
          simpa using this

theorem map_getD_range {l : List ℕ} {n : ℕ} (h : l.length = n) :
    (List.range n).map (fun k => l.getD k 0) = l := by
  apply List.ext_getElem
  · simp [h]
  · intro i h1 h2
    simp only [List.getElem_map, List.getElem_range]
    rw [List.getD_eq_getElem?_getD, List.getElem?_eq_getElem h2]
    rfl

/-! ### Helper lemmas about the bounding box and the foreground mask -/

theorem get_ND_bounding_box_lengths {a : NDArray} {bm bM : List ℕ}
    (h : get_ND_bounding_box a = some (bm, bM)) :
    bm.length = a.shape.length ∧ bM.length = a.shape.length := by
  unfold get_ND_bounding_box at h
  split at h
  · exact absurd h (by simp)
  · injection h with h
    injection h with hA hB
    rw [← hA, ← hB]
    simp

theorem get_ND_bounding_box_single {a : NDArray} {p : List ℕ}
    (h : nonzeroIndices a = [p]) (hlen : p.length = a.shape.length) :
    get_ND_bounding_box a = some (p, p.map (fun x => x + 1)) := by
  have h1 : (List.range a.shape.length).map (fun k => p.getD k 0) = p := map_getD_range hlen
  have h2 : (List.range a.shape.length).map (fun k => p.getD k 0 + 1) = p.map (fun x => x + 1) := by
    have h3 := congrArg (List.map (fun x => x + 1)) h1
    rw [List.map_map] at h3
    exact h3
  unfold get_ND_bounding_box
  rw [h]
  simp only [List.foldl_nil, Option.some.injEq]
  rw [h1, h2]

theorem fgMask_zero_or_one (label : NDArray) (mls : List ℤ) (idx : List ℕ) :
    (fgMask label mls).data idx = 0 ∨ (fgMask label mls).data idx = 1 := by
  suffices hgen : ∀ (l : List ℤ) (m : ℤ), m = 0 ∨ m = 1 →
      l.foldl (fun m v => max m (if label.data idx = v then 1 else 0)) m = 0 ∨
      l.foldl (fun m v => max m (if label.data idx = v then 1 else 0)) m = 1 by
    exact hgen mls 0 (Or.inl rfl)
  intro l
  induction l with
  | nil => intro m hm; simpa using hm
  | cons v vs ih =>
    intro m hm
    simp only [List.foldl_cons]
    apply ih
    rcases hm with h | h <;> subst h <;> by_cases hv : label.data idx = v <;>
      simp [hv, max_def]

theorem ndsum_ne_zero_of_single {a : NDArray} {p : List ℕ}
    (hvals : ∀ idx, a.data idx = 0 ∨ a.data idx = 1)
    (h : nonzeroIndices a = [p]) : ¬ ndsum a = 0 := by
  have hp : p ∈ nonzeroIndices a := by simp [h]
  have hmem : p ∈ allIndices a.shape := List.mem_of_mem_filter hp
  have hpd : a.data p ≠ 0 := by
    have := List.of_mem_filter hp
    simpa using this
  have hterm : (1 : ℤ) ∈ (allIndices a.shape).map a.data := by
    refine List.mem_map.mpr ⟨p, hmem, ?_⟩
    rcases hvals p with h0 | h1
    · exact absurd h0 hpd
    · exact h1
  have hnn : ∀ x ∈ (allIndices a.shape).map a.data, (0 : ℤ) ≤ x := by
    intro x hx
    obtain ⟨q, hq, rfl⟩ := List.mem_map.mp hx
    rcases hvals q with h0 | h0 <;> simp [h0]
  have hle := List.single_le_sum hnn 1 hterm
  unfold ndsum
  omega

theorem nonzeroIndices_single_mem {a : NDArray} {p : List ℕ}
    (h : nonzeroIndices a = [p]) :
    p.length = a.shape.length ∧
      ∀ k, k < a.shape.length → p.getD k 0 < a.shape.getD k 0 := by
  have hp : p ∈ nonzeroIndices a := by simp [h]
  exact mem_allIndices.mp (List.mem_of_mem_filter hp)

/-! ### Characterization of the forward passes -/

/-- The sample produced by a successful `CropWithBoundingBox.__call__`
with spatial bounds `(cmSp, cMSp)`. -/
def cwbResult (s : Sample) (cmSp cMSp : List ℤ) : Sample :=
  let crop_min := 0 :: cmSp
  let crop_max := (s.image.shape.take 1).map (fun (c : ℕ) => (c : ℤ)) ++ cMSp
  let lw := cropLabelWeight s.label s.image.shape crop_min crop_max
  let wres := cropLabelWeight s.weight s.image.shape crop_min lw.2
  { s with
    image := crop_ND_volume_with_bounding_box s.image crop_min crop_max,
    label := lw.1, weight := wres.1,
    cwbParam := some (ParamStore.single (s.image.shape, crop_min, crop_max)) }

/-- The sample produced by a successful `RandomCrop.__call__` with
spatial bounds `(cmSp, cMSp)`. -/
def rcResult (s : Sample) (cmSp cMSp : List ℤ) : Sample :=
  let crop_min := 0 :: cmSp
  let crop_max := (s.image.shape.take 1).map (fun (c : ℕ) => (c : ℤ)) ++ cMSp
  let lw := cropLabelWeight s.label s.image.shape crop_min crop_max
  let wres := cropLabelWeight s.weight s.image.shape crop_min lw.2
  { s with
    image := crop_ND_volume_with_bounding_box s.image crop_min crop_max,
    label := lw.1, weight := wres.1,
    rcParam := some (ParamStore.single (s.image.shape, crop_min, crop_max)) }

theorem cwb_call_eq {t : CropWithBoundingBox} {s : Sample}
    {bm bM : List ℕ} {cmSp cMSp : List ℤ}
    (h1 : get_ND_bounding_box s.image = some (bm, bM))
    (h2 : t.spatialBounds (s.image.shape.length - 1) bm.tail bM.tail = some (cmSp, cMSp)) :
    t.call s = some (cwbResult s cmSp cMSp) := by
  simp only [CropWithBoundingBox.call, cwbResult, h1, h2, Option.bind_eq_bind,
    Option.some_bind]
  rfl

theorem cwb_call_some_inv {t : CropWithBoundingBox} {s s' : Sample}
    (h : t.call s = some s') :
    ∃ bm bM cmSp cMSp,
      get_ND_bounding_box s.image = some (bm, bM) ∧
      t.spatialBounds (s.image.shape.length - 1) bm.tail bM.tail = some (cmSp, cMSp) ∧
      s' = cwbResult s cmSp cMSp := by
  simp only [CropWithBoundingBox.call, Option.bind_eq_bind] at h
  rw [Option.bind_eq_some] at h
  obtain ⟨⟨bm, bM⟩, hbb, h⟩ := h
  rw [Option.bind_eq_some] at h
  obtain ⟨⟨cmSp, cMSp⟩, hsb, h⟩ := h
  simp only [Option.pure_def, Option.some.injEq] at h
  exact ⟨bm, bM, cmSp, cMSp, hbb, hsb, by rw [← h]; rfl⟩

theorem rc_call_eq {t : RandomCrop} {s : Sample}
    {draws1 draws2 : List ℤ} {r : ℚ} {cmSp cMSp : List ℤ}
    (hdim : s.image.shape.length - 1 = t.output_size.length)
    (h1 : t.spatialCropMin s.image.shape (s.image.shape.length - 1) s.label draws1 r draws2 =
      some cmSp)
    (h2 : seqComp (s.image.shape.length - 1) (fun i => do
      let c ← cmSp[i]?
      let o ← t.output_size[i]?
      pure (c + (o : ℤ))) = some cMSp) :
    t.call draws1 r draws2 s = some (rcResult s cmSp cMSp) := by
  simp only [Option.bind_eq_bind] at h2
  simp only [RandomCrop.call, rcResult, if_pos hdim, h1, h2, Option.bind_eq_bind,
    Option.some_bind]
  rfl

theorem rc_call_some_inv {t : RandomCrop} {s s' : Sample}
    {draws1 draws2 : List ℤ} {r : ℚ}
    (h : t.call draws1 r draws2 s = some s') :
    ∃ cmSp cMSp,
      s.image.shape.length - 1 = t.output_size.length ∧
      t.spatialCropMin s.image.shape (s.image.shape.length - 1) s.label draws1 r draws2 =
        some cmSp ∧
      seqComp (s.image.shape.length - 1) (fun i => do
        let c ← cmSp[i]?
        let o ← t.output_size[i]?
        pure (c + (o : ℤ))) = some cMSp ∧
      s' = rcResult s cmSp cMSp := by
  by_cases hdim : s.image.shape.length - 1 = t.output_size.length
  · simp only [RandomCrop.call, if_pos hdim, Option.bind_eq_bind] at h
    rw [Option.bind_eq_some] at h
    obtain ⟨cmSp, hcm, h⟩ := h
    rw [Option.bind_eq_some] at h
    obtain ⟨cMSp, hcM, h⟩ := h
    simp only [Option.pure_def, Option.some.injEq] at h
    exact ⟨cmSp, cMSp, hdim, hcm, hcM, by rw [← h]; rfl⟩
  · simp only [RandomCrop.call, if_neg hdim] at h
    exact absurd h (by simp)

/-! ### Branch characterizations of the bound computations -/

theorem getD_map_range {g : ℕ → α} {n j : ℕ} (h : j < n) (d : α) :
    ((List.range n).map g).getD j d = g j := by
  rw [List.getD_eq_getElem?_getD, List.getElem?_eq_getElem (by simpa using h)]
  simp

/-- The spatial `crop_min` of the centered branch of
`CropWithBoundingBox.__call__` (`crop.py` lines 40-42). -/
def centeredCropMin (bb_min bb_max os : List ℕ) (dim : ℕ) : List ℤ :=
  (List.range dim).map (fun i =>
    max 0 ((((bb_min.getD i 0 + bb_max.getD i 0 + 1) / 2 : ℕ) : ℤ) - ((os.getD i 0 / 2 : ℕ) : ℤ)))

theorem spatialBounds_bb {t : CropWithBoundingBox}
    (hst : t.start = none) (hos : t.output_size = none) (dim : ℕ) (bm bM : List ℕ) :
    t.spatialBounds dim bm bM =
      some (bm.map (fun (b : ℕ) => (b : ℤ)), bM.map (fun (b : ℕ) => (b : ℤ))) := by
  simp only [CropWithBoundingBox.spatialBounds, hst, hos]

theorem spatialBounds_centered {t : CropWithBoundingBox} {os : List ℕ}
    (hst : t.start = none) (hos : t.output_size = some os)
    {dim : ℕ} {bm bM : List ℕ}
    (hlen : os.length = dim) (hbm : dim ≤ bm.length) (hbM : dim ≤ bM.length) :
    t.spatialBounds dim bm bM = some (centeredCropMin bm bM os dim,
      (List.range dim).map (fun i =>
        (centeredCropMin bm bM os dim).getD i 0 + (os.getD i 0 : ℤ))) := by
  have h1 : seqComp dim (fun i => do
      let b ← bm[i]?
      let bb ← bM[i]?
      let o ← os[i]?
      pure ((((b + bb + 1) / 2 : ℕ) : ℤ) - ((o / 2 : ℕ) : ℤ))) =
      some ((List.range dim).map (fun i =>
        (((bm.getD i 0 + bM.getD i 0 + 1) / 2 : ℕ) : ℤ) - ((os.getD i 0 / 2 : ℕ) : ℤ))) := by
    apply seqComp_eq_some
    intro j hj
    rw [getElem?_eq_some_getD (show j < bm.length by omega) 0,
        getElem?_eq_some_getD (show j < bM.length by omega) 0,
        getElem?_eq_some_getD (show j < os.length by omega) 0]
    rfl
  have h2 : seqComp dim (fun i => do
      let c ← ((List.range dim).map (fun i =>
        (((bm.getD i 0 + bM.getD i 0 + 1) / 2 : ℕ) : ℤ) - ((os.getD i 0 / 2 : ℕ) : ℤ)))[i]?
      pure (max 0 c)) = some (centeredCropMin bm bM os dim) := by
    apply seqComp_eq_some
    intro j hj
    rw [getElem?_eq_some_getD (by simpa using hj) 0, getD_map_range hj]
    rfl
  have h3 : seqComp dim (fun i => do
      let c ← (centeredCropMin bm bM os dim)[i]?
      let o ← os[i]?
      pure (c + (o : ℤ))) = some ((List.range dim).map (fun i =>
        (centeredCropMin bm bM os dim).getD i 0 + (os.getD i 0 : ℤ))) := by
    apply seqComp_eq_some
    intro j hj
    rw [getElem?_eq_some_getD (show j < (centeredCropMin bm bM os dim).length by
          simp [centeredCropMin, hj]) 0,
        getElem?_eq_some_getD (show j < os.length by omega) 0]
    rfl
  simp only [Option.bind_eq_bind, Option.pure_def] at h1 h2 h3
  simp only [CropWithBoundingBox.spatialBounds, hst, hos, hlen, if_true, eq_self_iff_true,
    Option.bind_eq_bind, h1, Option.some_bind, h2, h3, Option.pure_def]

theorem spatialBounds_start {t : CropWithBoundingBox} {st : List ℤ} {os : List ℕ}
    (hst : t.start = some st) (hos : t.output_size = some os)
    {dim : ℕ} (bm bM : List ℕ)
    (hlen : st.length = dim) (hoslen : dim ≤ os.length) :
    t.spatialBounds dim bm bM = some (st,
      (List.range dim).map (fun i => st.getD i 0 + (os.getD i 0 : ℤ))) := by
  have h1 : seqComp dim (fun i => do
      let c ← st[i]?
      let o ← os[i]?
      pure (c + (o : ℤ))) = some ((List.range dim).map (fun i =>
        st.getD i 0 + (os.getD i 0 : ℤ))) := by
    apply seqComp_eq_some
    intro j hj
    rw [getElem?_eq_some_getD (show j < st.length by omega) 0,
        getElem?_eq_some_getD (show j < os.length by omega) 0]
    rfl
  simp only [Option.bind_eq_bind, Option.pure_def] at h1
  simp only [CropWithBoundingBox.spatialBounds, hst, hos, hlen, if_true, eq_self_iff_true,
    Option.bind_eq_bind, h1, Option.some_bind, Option.pure_def]

theorem spatialBounds_centered_badlen {t : CropWithBoundingBox} {os : List ℕ}
    (hst : t.start = none) (hos : t.output_size = some os)
    {dim : ℕ} (bm bM : List ℕ) (hlen : os.length ≠ dim) :
    t.spatialBounds dim bm bM = none := by
  simp only [CropWithBoundingBox.spatialBounds, hst, hos, hlen, if_false]

theorem spatialBounds_start_badlen {t : CropWithBoundingBox} {st : List ℤ}
    (hst : t.start = some st)
    {dim : ℕ} (bm bM : List ℕ) (hlen : st.length ≠ dim) :
    t.spatialBounds dim bm bM = none := by
  simp only [CropWithBoundingBox.spatialBounds, hst, hlen, if_false]

theorem spatialBounds_start_osnone {t : CropWithBoundingBox} {st : List ℤ}
    (hst : t.start = some st) (hos : t.output_size = none)
    {dim : ℕ} (bm bM : List ℕ) :
    t.spatialBounds dim bm bM = none := by
  simp only [CropWithBoundingBox.spatialBounds, hst, hos]
  split <;> rfl

theorem spatialBounds_start_os_short {t : CropWithBoundingBox} {st : List ℤ} {os : List ℕ}
    (hst : t.start = some st) (hos : t.output_size = some os)
    {dim : ℕ} (bm bM : List ℕ) (hlen : st.length = dim) (hshort : os.length < dim) :
    t.spatialBounds dim bm bM = none := by
  have h1 : seqComp dim (fun i => do
      let c ← st[i]?
      let o ← os[i]?
      pure (c + (o : ℤ))) = (none : Option (List ℤ)) := by
    apply seqComp_eq_none dim _ os.length hshort
    rw [getElem?_eq_some_getD (show os.length < st.length by omega) 0,
        List.getElem?_eq_none (le_refl os.length)]
    rfl
  simp only [Option.bind_eq_bind, Option.pure_def] at h1
  simp only [CropWithBoundingBox.spatialBounds, hst, hos, hlen, if_true, eq_self_iff_true,
    Option.bind_eq_bind, Option.pure_def, h1, Option.none_bind]

theorem spatialCropMin_uniform {t : RandomCrop} {S : List ℕ} {dim : ℕ}
    {label? : Option NDArray} {draws1 draws2 : List ℤ} {r : ℚ}
    (hfg : ¬(t.fg_focus = true ∧ r < t.fg_ratio))
    (hS : dim + 1 ≤ S.length) (hos : dim ≤ t.output_size.length) (hd : dim ≤ draws1.length)
    (hrange : ∀ j, j < dim → 0 ≤ draws1.getD j 0 ∧
      draws1.getD j 0 ≤ (S.getD (j + 1) 0 : ℤ) - (t.output_size.getD j 0 : ℤ)) :
    t.spatialCropMin S dim label? draws1 r draws2 =
      some ((List.range dim).map (fun j => draws1.getD j 0)) := by
  have h1 : seqComp dim (fun i => do
      let s ← S[i + 1]?
      let o ← t.output_size[i]?
      pure ((s : ℤ) - (o : ℤ))) = some ((List.range dim).map (fun j =>
        (S.getD (j + 1) 0 : ℤ) - (t.output_size.getD j 0 : ℤ))) := by
    apply seqComp_eq_some
    intro j hj
    rw [getElem?_eq_some_getD (show j + 1 < S.length by omega) 0,
        getElem?_eq_some_getD (show j < t.output_size.length by omega) 0]
    rfl
  have h2 : seqComp dim (fun i => do
      let m ← ((List.range dim).map (fun j =>
        (S.getD (j + 1) 0 : ℤ) - (t.output_size.getD j 0 : ℤ)))[i]?
      let d ← draws1[i]?
      if 0 ≤ d ∧ d ≤ m then pure d else none) =
      some ((List.range dim).map (fun j => draws1.getD j 0)) := by
    apply seqComp_eq_some
    intro j hj
    rw [getElem?_eq_some_getD (by simpa using hj) 0, getD_map_range hj,
        getElem?_eq_some_getD (show j < draws1.length by omega) 0]
    simp only [Option.bind_eq_bind, Option.some_bind]
    rw [if_pos (hrange j hj)]
    rfl
  simp only [Option.bind_eq_bind, Option.pure_def] at h1 h2
  simp only [RandomCrop.spatialCropMin, Option.bind_eq_bind, Option.pure_def, h1,
    Option.some_bind, h2, hfg, if_false]

theorem spatialCropMin_fg {t : RandomCrop} {S : List ℕ} {dim : ℕ} {lab : NDArray}
    {mls : List ℤ} {draws1 draws2 : List ℤ} {r : ℚ} {bm bM : List ℕ}
    (hfg : t.fg_focus = true ∧ r < t.fg_ratio)
    (hml : t.mask_label = some mls)
    (hsum : ¬ ndsum (fgMask lab mls) = 0)
    (hbb : get_ND_bounding_box (fgMask lab mls) = some (bm, bM))
    (hS : dim + 1 ≤ S.length) (hos : dim ≤ t.output_size.length) (hd1 : dim ≤ draws1.length)
    (hr1 : ∀ j, j < dim → 0 ≤ draws1.getD j 0 ∧
      draws1.getD j 0 ≤ (S.getD (j + 1) 0 : ℤ) - (t.output_size.getD j 0 : ℤ))
    (hbm : dim ≤ bm.tail.length) (hbM : dim ≤ bM.tail.length) (hd2 : dim ≤ draws2.length)
    (hr2 : ∀ j, j < dim → (bm.tail.getD j 0 : ℤ) ≤ draws2.getD j 0 ∧
      draws2.getD j 0 ≤ (bM.tail.getD j 0 : ℤ)) :
    t.spatialCropMin S dim (some lab) draws1 r draws2 =
      some ((List.range dim).map (fun j =>
        min (max 0 (draws2.getD j 0 - ((t.output_size.getD j 0 / 2 : ℕ) : ℤ)))
            ((S.getD (j + 1) 0 : ℤ) - (t.output_size.getD j 0 : ℤ)))) := by
  have h1 : seqComp dim (fun i => do
      let s ← S[i + 1]?
      let o ← t.output_size[i]?
      pure ((s : ℤ) - (o : ℤ))) = some ((List.range dim).map (fun j =>
        (S.getD (j + 1) 0 : ℤ) - (t.output_size.getD j 0 : ℤ))) := by
    apply seqComp_eq_some
    intro j hj
    rw [getElem?_eq_some_getD (show j + 1 < S.length by omega) 0,
        getElem?_eq_some_getD (show j < t.output_size.length by omega) 0]
    rfl
  have h2 : seqComp dim (fun i => do
      let m ← ((List.range dim).map (fun j =>
        (S.getD (j + 1) 0 : ℤ) - (t.output_size.getD j 0 : ℤ)))[i]?
      let d ← draws1[i]?
      if 0 ≤ d ∧ d ≤ m then pure d else none) =
      some ((List.range dim).map (fun j => draws1.getD j 0)) := by
    apply seqComp_eq_some
    intro j hj
    rw [getElem?_eq_some_getD (by simpa using hj) 0, getD_map_range hj,
        getElem?_eq_some_getD (show j < draws1.length by omega) 0]
    simp only [Option.bind_eq_bind, Option.some_bind]
    rw [if_pos (hr1 j hj)]
    rfl
  have h3 : seqComp dim (fun i => do
      let b ← bm.tail[i]?
      let bb2 ← bM.tail[i]?
      let o ← t.output_size[i]?
      let d ← draws2[i]?
      if (b : ℤ) ≤ d ∧ d ≤ (bb2 : ℤ) then pure (d - ((o / 2 : ℕ) : ℤ)) else none) =
      some ((List.range dim).map (fun j =>
        draws2.getD j 0 - ((t.output_size.getD j 0 / 2 : ℕ) : ℤ))) := by
    apply seqComp_eq_some
    intro j hj
    rw [getElem?_eq_some_getD (show j < bm.tail.length by omega) 0,
        getElem?_eq_some_getD (show j < bM.tail.length by omega) 0,
        getElem?_eq_some_getD (show j < t.output_size.length by omega) 0,
        getElem?_eq_some_getD (show j < draws2.length by omega) 0]
    simp only [Option.bind_eq_bind, Option.some_bind]
    rw [if_pos (hr2 j hj)]
    rfl
  have h4 : seqComp dim (fun i => do
      let c ← (((List.range dim).map (fun j =>
        draws2.getD j 0 - ((t.output_size.getD j 0 / 2 : ℕ) : ℤ))).map (fun c => max 0 c))[i]?
      let s ← S[i + 1]?
      let o ← t.output_size[i]?
      pure (min c ((s : ℤ) - (o : ℤ)))) =
      some ((List.range dim).map (fun j =>
        min (max 0 (draws2.getD j 0 - ((t.output_size.getD j 0 / 2 : ℕ) : ℤ)))
            ((S.getD (j + 1) 0 : ℤ) - (t.output_size.getD j 0 : ℤ)))) := by
    apply seqComp_eq_some
    intro j hj
    rw [getElem?_eq_some_getD (show j < (((List.range dim).map (fun j =>
          draws2.getD j 0 - ((t.output_size.getD j 0 / 2 : ℕ) : ℤ))).map
          (fun c => max 0 c)).length by simpa using hj) 0,
        List.map_map, getD_map_range hj,
        getElem?_eq_some_getD (show j + 1 < S.length by omega) 0,
        getElem?_eq_some_getD (show j < t.output_size.length by omega) 0]
    rfl
  simp only [Option.bind_eq_bind, Option.pure_def] at h1 h2 h3 h4
  simp only [RandomCrop.spatialCropMin, Option.bind_eq_bind, Option.pure_def, h1,
    Option.some_bind, h2, hfg, and_self, if_true, hml, hsum, if_false, hbb, h3, h4]

theorem cropMaxSp_eq {cmSp : List ℤ} {os : List ℕ} {dim : ℕ}
    (hcm : dim ≤ cmSp.length) (hos : dim ≤ os.length) :
    seqComp dim (fun i => do
      let c ← cmSp[i]?
      let o ← os[i]?
      pure (c + (o : ℤ))) =
      some ((List.range dim).map (fun i => cmSp.getD i 0 + (os.getD i 0 : ℤ))) := by
  apply seqComp_eq_some
  intro j hj
  rw [getElem?_eq_some_getD (show j < cmSp.length by omega) 0,
      getElem?_eq_some_getD (show j < os.length by omega) 0]
  rfl

/-! ### Inversion of the bound computations -/

theorem getD_of_getElem?_some {l : List α} {j : ℕ} {v d : α} (h : l[j]? = some v) :
    l.getD j d = v := by
  rw [List.getD_eq_getElem?_getD, h]
  rfl

theorem lt_length_of_getElem?_some {l : List α} {j : ℕ} {v : α} (h : l[j]? = some v) :
    j < l.length := by
  by_contra hc
  rw [List.getElem?_eq_none (by omega)] at h
  exact absurd h (by simp)

/-- Any successful `CropWithBoundingBox` bound computation with an
explicit `output_size` relates the two bound lists pointwise by
`crop_max[i] = crop_min[i] + output_size[i]`. -/
theorem spatialBounds_some_os_inv {t : CropWithBoundingBox} {os : List ℕ} {dim : ℕ}
    {bm bM : List ℕ} {cmSp cMSp : List ℤ}
    (hos : t.output_size = some os)
    (h : t.spatialBounds dim bm bM = some (cmSp, cMSp)) :
    cmSp.length = dim ∧ cMSp.length = dim ∧
    ∀ i, i < dim → cMSp.getD i 0 = cmSp.getD i 0 + (os.getD i 0 : ℤ) := by
  cases hst : t.start with
  | none =>
    simp only [CropWithBoundingBox.spatialBounds, hst, hos, Option.bind_eq_bind,
      Option.pure_def] at h
    by_cases hlen : os.length = dim
    · rw [if_pos hlen] at h
      rw [Option.bind_eq_some] at h
      obtain ⟨cm1, hcm1, h⟩ := h
      rw [Option.bind_eq_some] at h
      obtain ⟨cm2, hcm2, h⟩ := h
      rw [Option.bind_eq_some] at h
      obtain ⟨cM, hcM, h⟩ := h
      simp only [Option.some.injEq, Prod.mk.injEq] at h
      obtain ⟨h2, h3⟩ := h
      rw [← h2, ← h3]
      obtain ⟨hlen2, -⟩ := seqComp_some_inv hcm2
      obtain ⟨hlenM, hgetM⟩ := seqComp_some_inv hcM
      refine ⟨hlen2, hlenM, ?_⟩
      intro i hi
      have hfi := hgetM i hi
      rw [getElem?_eq_some_getD (show i < cm2.length by omega) 0,
          getElem?_eq_some_getD (show i < os.length by omega) 0,
          getElem?_eq_some_getD (show i < cM.length by omega) 0] at hfi
      simp only [Option.bind_eq_bind, Option.some_bind, Option.some.injEq] at hfi
      exact hfi.symm
    · rw [if_neg hlen] at h
      exact absurd h (by simp)
  | some st =>
    simp only [CropWithBoundingBox.spatialBounds, hst, hos, Option.bind_eq_bind,
      Option.pure_def] at h
    by_cases hlen : st.length = dim
    · rw [if_pos hlen] at h
      rw [Option.bind_eq_some] at h
      obtain ⟨cM, hcM, h⟩ := h
      simp only [Option.some.injEq, Prod.mk.injEq] at h
      obtain ⟨h2, h3⟩ := h
      rw [← h2, ← h3]
      obtain ⟨hlenM, hgetM⟩ := seqComp_some_inv hcM
      refine ⟨hlen, hlenM, ?_⟩
      intro i hi
      have hfi := hgetM i hi
      rw [getElem?_eq_some_getD (show i < st.length by omega) 0,
          getElem?_eq_some_getD (show i < cM.length by omega) 0] at hfi
      simp only [Option.bind_eq_bind, Option.some_bind] at hfi
      cases hoi : os[i]? with
      | none => rw [hoi] at hfi; simp at hfi
      | some o =>
        rw [hoi] at hfi
        simp only [Option.some_bind, Option.some.injEq] at hfi
        rw [getD_of_getElem?_some hoi]
        exact hfi.symm
    · rw [if_neg hlen] at h
      exact absurd h (by simp)

/-- When `start` is none, every entry of a successful spatial `crop_min`
of `CropWithBoundingBox` is nonnegative (bounding-box indices, or values
clamped by `max(0, -)`). -/
theorem spatialBounds_startnone_nonneg {t : CropWithBoundingBox} {dim : ℕ}
    {bm bM : List ℕ} {cmSp cMSp : List ℤ}
    (hst : t.start = none)
    (h : t.spatialBounds dim bm bM = some (cmSp, cMSp)) :
    ∀ x ∈ cmSp, 0 ≤ x := by
  cases hos : t.output_size with
  | none =>
    rw [spatialBounds_bb hst hos dim bm bM] at h
    simp only [Option.some.injEq, Prod.mk.injEq] at h
    obtain ⟨h2, -⟩ := h
    intro x hx
    rw [← h2] at hx
    obtain ⟨b, hb, hbx⟩ := List.mem_map.mp hx
    rw [← hbx]
    exact Int.natCast_nonneg b
  | some os =>
    simp only [CropWithBoundingBox.spatialBounds, hst, hos, Option.bind_eq_bind,
      Option.pure_def] at h
    by_cases hlen : os.length = dim
    · rw [if_pos hlen] at h
      rw [Option.bind_eq_some] at h
      obtain ⟨cm1, hcm1, h⟩ := h
      rw [Option.bind_eq_some] at h
      obtain ⟨cm2, hcm2, h⟩ := h
      rw [Option.bind_eq_some] at h
      obtain ⟨cM, hcM, h⟩ := h
      simp only [Option.some.injEq, Prod.mk.injEq] at h
      obtain ⟨h2, -⟩ := h
      obtain ⟨hlen2, hget2⟩ := seqComp_some_inv hcm2
      intro x hx
      rw [← h2] at hx
      obtain ⟨j, hj, hjx⟩ := List.mem_iff_getElem.mp hx
      have hfj := hget2 j (by omega)
      rw [List.getElem?_eq_getElem hj] at hfj
      cases hc1 : cm1[j]? with
      | none => rw [hc1] at hfj; simp at hfj
      | some c =>
        rw [hc1] at hfj
        simp only [Option.bind_eq_bind, Option.some_bind, Option.some.injEq] at hfj
        rw [← hjx, ← hfj]
        exact le_max_left 0 c
    · rw [if_neg hlen] at h
      exact absurd h (by simp)

/-- Any successful spatial `crop_min` of `RandomCrop` has length `dim`
and entries in `[0, input_shape[i+1] - output_size[i]]`: the uniform
draws are bounded by the crop margin, and the foreground branch clamps
into the same interval. -/
theorem spatialCropMin_some_inv {t : RandomCrop} {S : List ℕ} {dim : ℕ}
    {label? : Option NDArray} {draws1 draws2 : List ℤ} {r : ℚ} {cmSp : List ℤ}
    (h : t.spatialCropMin S dim label? draws1 r draws2 = some cmSp) :
    cmSp.length = dim ∧
    ∀ j, j < dim → 0 ≤ cmSp.getD j 0 ∧
      cmSp.getD j 0 ≤ (S.getD (j + 1) 0 : ℤ) - (t.output_size.getD j 0 : ℤ) := by
  simp only [RandomCrop.spatialCropMin, Option.bind_eq_bind, Option.pure_def] at h
  rw [Option.bind_eq_some] at h
  obtain ⟨mar, hmar, h⟩ := h
  rw [Option.bind_eq_some] at h
  obtain ⟨cmin0, hcmin0, h⟩ := h
  obtain ⟨hlenm, hgetm⟩ := seqComp_some_inv hmar
  obtain ⟨hlen0, hget0⟩ := seqComp_some_inv hcmin0
  have hmarval : ∀ j, j < dim →
      mar.getD j 0 = (S.getD (j + 1) 0 : ℤ) - (t.output_size.getD j 0 : ℤ) := by
    intro j hj
    have hfj := hgetm j hj
    rw [getElem?_eq_some_getD (show j < mar.length by omega) 0] at hfj
    cases hS1 : S[j + 1]? with
    | none => rw [hS1] at hfj; simp at hfj
    | some sv =>
      rw [hS1] at hfj
      simp only [Option.bind_eq_bind, Option.some_bind] at hfj
      cases hO1 : t.output_size[j]? with
      | none => rw [hO1] at hfj; simp at hfj
      | some ov =>
        rw [hO1] at hfj
        simp only [Option.some_bind, Option.some.injEq] at hfj
        rw [getD_of_getElem?_some hS1, getD_of_getElem?_some hO1]
        exact hfj.symm
  have hmin0 : ∀ j, j < dim → 0 ≤ cmin0.getD j 0 ∧ cmin0.getD j 0 ≤ mar.getD j 0 := by
    intro j hj
    have hfj := hget0 j hj
    rw [getElem?_eq_some_getD (show j < cmin0.length by omega) 0,
        getElem?_eq_some_getD (show j < mar.length by omega) 0] at hfj
    simp only [Option.bind_eq_bind, Option.some_bind] at hfj
    cases hd1 : draws1[j]? with
    | none => rw [hd1] at hfj; simp at hfj
    | some d =>
      rw [hd1] at hfj
      simp only [Option.some_bind] at hfj
      split at hfj
      · next hcond =>
        injection hfj with hfj
        omega
      · simp at hfj
  have hfinal : ∀ (cm1 : List ℤ),
      ((seqComp dim fun i =>
        (List.map (fun c => 0 ⊔ c) cm1)[i]?.bind fun c =>
          S[i + 1]?.bind fun s => t.output_size[i]?.bind fun o =>
            some (c ⊓ ((s : ℤ) - (o : ℤ)))).bind fun cm3 => some cm3) = some cmSp →
      cmSp.length = dim ∧
      ∀ j, j < dim → 0 ≤ cmSp.getD j 0 ∧
        cmSp.getD j 0 ≤ (S.getD (j + 1) 0 : ℤ) - (t.output_size.getD j 0 : ℤ) := by
    intro cm1 hch
    rw [Option.bind_eq_some] at hch
    obtain ⟨cm3, hcm3, hch⟩ := hch
    injection hch with hch
    rw [← hch]
    obtain ⟨hlen3, hget3⟩ := seqComp_some_inv hcm3
    refine ⟨hlen3, ?_⟩
    intro j hj
    have hfj := hget3 j hj
    rw [getElem?_eq_some_getD (show j < cm3.length by omega) 0, List.getElem?_map] at hfj
    cases hc1 : cm1[j]? with
    | none => rw [hc1] at hfj; simp at hfj
    | some c1 =>
      rw [hc1] at hfj
      simp only [Option.map_some', Option.bind_eq_bind, Option.some_bind] at hfj
      cases hS1 : S[j + 1]? with
      | none => rw [hS1] at hfj; simp at hfj
      | some sv =>
        rw [hS1] at hfj
        simp only [Option.some_bind] at hfj
        cases hO1 : t.output_size[j]? with
        | none => rw [hO1] at hfj; simp at hfj
        | some ov =>
          rw [hO1] at hfj
          simp only [Option.some_bind, Option.some.injEq] at hfj
          have hmarj := hmarval j hj
          have hm0j := hmin0 j hj
          rw [getD_of_getElem?_some hS1, getD_of_getElem?_some hO1] at hmarj ⊢
          constructor
          · rw [← hfj]
            refine le_min (le_max_left 0 c1) (by omega)
          · rw [← hfj]
            exact min_le_right _ _
  by_cases hfg : t.fg_focus = true ∧ r < t.fg_ratio
  · rw [if_pos hfg] at h
    rw [Option.bind_eq_some] at h
    obtain ⟨lab, -, h⟩ := h
    rw [Option.bind_eq_some] at h
    obtain ⟨mls, -, h⟩ := h
    by_cases hz : ndsum (fgMask lab mls) = 0
    · rw [if_pos hz, Option.some_bind] at h
      rw [Option.bind_eq_some] at h
      obtain ⟨cm1, -, h⟩ := h
      exact hfinal cm1 h
    · rw [if_neg hz] at h
      rw [Option.bind_eq_some] at h
      obtain ⟨bbv, -, h⟩ := h
      rw [Option.bind_eq_some] at h
      obtain ⟨cm1, -, h⟩ := h
      exact hfinal cm1 h
  · rw [if_neg hfg] at h
    injection h with h
    rw [← h]
    refine ⟨hlen0, ?_⟩
    intro j hj
    have hmarj := hmarval j hj
    have hm0j := hmin0 j hj
    omega

/-! ### Projections of the forward results -/

theorem cwbResult_param {s : Sample} {cmSp cMSp : List ℤ} {C : ℕ} {sp : List ℕ}
    (himg : s.image.shape = C :: sp) :
    (cwbResult s cmSp cMSp).cwbParam =
      some (ParamStore.single (C :: sp, 0 :: cmSp, (C : ℤ) :: cMSp)) := by
  simp [cwbResult, himg]

theorem rcResult_param {s : Sample} {cmSp cMSp : List ℤ} {C : ℕ} {sp : List ℕ}
    (himg : s.image.shape = C :: sp) :
    (rcResult s cmSp cMSp).rcParam =
      some (ParamStore.single (C :: sp, 0 :: cmSp, (C : ℤ) :: cMSp)) := by
  simp [rcResult, himg]

theorem cwbResult_image {s : Sample} {cmSp cMSp : List ℤ} {C : ℕ} {sp : List ℕ}
    (himg : s.image.shape = C :: sp) :
    (cwbResult s cmSp cMSp).image =
      crop_ND_volume_with_bounding_box s.image (0 :: cmSp) ((C : ℤ) :: cMSp) := by
  simp [cwbResult, himg]

theorem rcResult_image {s : Sample} {cmSp cMSp : List ℤ} {C : ℕ} {sp : List ℕ}
    (himg : s.image.shape = C :: sp) :
    (rcResult s cmSp cMSp).image =
      crop_ND_volume_with_bounding_box s.image (0 :: cmSp) ((C : ℤ) :: cMSp) := by
  simp [rcResult, himg]

/-! ### Concrete fixtures used by the witnesses -/

/-- A 1-channel image with three voxels valued 10, 20, 30. -/
def imgA : NDArray :=
  { shape := [1, 3],
    data := fun idx =>
      if idx = [0, 0] then 10 else (if idx = [0, 1] then 20 else (if idx = [0, 2] then 30 else 0)) }

/-- A sample holding only `imgA`. -/
def sampleA : Sample := { image := imgA }

/-- `CropWithBoundingBox` with an explicit start and no output size. -/
def cwbStartNoSize : CropWithBoundingBox :=
  { start := some [0], output_size := none, inverse := true }

/-- `CropWithBoundingBox` with an explicit start and an over-long output size. -/
def cwbStartLongSize : CropWithBoundingBox :=
  { start := some [0], output_size := some [2, 3], inverse := true }

/-- `CropWithBoundingBox` centering a length-2 window on the bounding box. -/
def cwbCentered2 : CropWithBoundingBox :=
  { start := none, output_size := some [2], inverse := true }

/-- `CropWithBoundingBox` with a negative explicit start. -/
def cwbStartNeg : CropWithBoundingBox :=
  { start := some [-1], output_size := some [2], inverse := true }

/-- `RandomCrop` with output size `[2]` and no foreground focus. -/
def rcPlain2 : RandomCrop :=
  { output_size := [2], fg_focus := false, fg_ratio := 0, mask_label := none, inverse := true }

/-! ### C3 -/

/-- C3: the spec says that with `start` given and `output_size` none the
forward pass succeeds with `crop_min = start` and
`crop_max[i] = start[i] + (bb_max[i] - bb_min[i])`.  The code instead
always fails in this configuration: `crop.py` line 48 evaluates
`len(self.output_size)` while `self.output_size` is `None`, raising a
`TypeError` before any crop bound is produced, contradicting the class
docstring (`output_size ... if None, set it as the size of bounding box
of non-zero region`). -/
theorem c3_start_without_output_size_always_fails (t : CropWithBoundingBox) (s : Sample)
    (st : List ℤ) (hst : t.start = some st) (hos : t.output_size = none) :
    t.call s = none := by
  cases hbb : get_ND_bounding_box s.image with
  | none => simp [CropWithBoundingBox.call, hbb]
  | some bb =>
    obtain ⟨bm, bM⟩ := bb
    simp [CropWithBoundingBox.call, hbb, spatialBounds_start_osnone hst hos bm.tail bM.tail]

/-- Concrete instance of the C3 failure: `start = [0]`, `output_size = None`
on `sampleA`. -/
theorem c3_start_without_output_size_always_fails_witness :
    cwbStartNoSize.call sampleA = none :=
  c3_start_without_output_size_always_fails cwbStartNoSize sampleA [0] rfl rfl

/-! ### C7 -/

/-- C7 (amended): precondition failures of the transforms.
`RandomCrop.__call__` fails whenever `len(output_size)` differs from the
spatial dimensionality.  `CropWithBoundingBox.__call__` fails when
`start` is none and `len(output_size)` differs, when a given `start` has
the wrong length, and when `start` is given with an `output_size`
shorter than the dimensionality (an index error rather than an
assertion); with `start` given, a longer `output_size` is not checked
and the call succeeds (see the counterexample).  The `mask_label`
sequence check runs in the `RandomCrop` constructor, so no transform
with a non-sequence `mask_label` is ever constructed.  Every failure
returns `none`, leaving the sample unmodified. -/
theorem c7_precondition_failures :
    (∀ (t : RandomCrop) (s : Sample) (draws1 : List ℤ) (r : ℚ) (draws2 : List ℤ),
      s.image.shape.length - 1 ≠ t.output_size.length →
      t.call draws1 r draws2 s = none) ∧
    (∀ (t : CropWithBoundingBox) (s : Sample) (os : List ℕ),
      t.start = none → t.output_size = some os →
      os.length ≠ s.image.shape.length - 1 → t.call s = none) ∧
    (∀ (t : CropWithBoundingBox) (s : Sample) (st : List ℤ),
      t.start = some st → st.length ≠ s.image.shape.length - 1 → t.call s = none) ∧
    (∀ (t : CropWithBoundingBox) (s : Sample) (st : List ℤ) (os : List ℕ),
      t.start = some st → t.output_size = some os →
      st.length = s.image.shape.length - 1 → os.length < s.image.shape.length - 1 →
      t.call s = none) ∧
    (∀ (os : PyParam ℕ) (fg : Bool) (ratio : ℚ) (v : ℤ) (inv : Bool),
      mkRandomCrop os fg ratio (PyParam.pscalar v) inv = none) := by
  refine ⟨?_, ?_, ?_, ?_, ?_⟩
  · intro t s draws1 r draws2 hne
    simp [RandomCrop.call, hne]
  · intro t s os hst hos hne
    cases hbb : get_ND_bounding_box s.image with
    | none => simp [CropWithBoundingBox.call, hbb]
    | some bb =>
      obtain ⟨bm, bM⟩ := bb
      simp [CropWithBoundingBox.call, hbb,
        spatialBounds_centered_badlen hst hos bm.tail bM.tail hne]
  · intro t s st hst hne
    cases hbb : get_ND_bounding_box s.image with
    | none => simp [CropWithBoundingBox.call, hbb]
    | some bb =>
      obtain ⟨bm, bM⟩ := bb
      simp [CropWithBoundingBox.call, hbb,
        spatialBounds_start_badlen hst bm.tail bM.tail hne]
  · intro t s st os hst hos hlen hshort
    cases hbb : get_ND_bounding_box s.image with
    | none => simp [CropWithBoundingBox.call, hbb]
    | some bb =>
      obtain ⟨bm, bM⟩ := bb
      simp [CropWithBoundingBox.call, hbb,
        spatialBounds_start_os_short hst hos bm.tail bM.tail hlen hshort]
  · intro os fg ratio v inv
    cases os <;> rfl

/-- Counterexample to C7 as stated: with `start = [0]` and the length-2
`output_size = [2, 3]` on the one-spatial-axis `sampleA`, the length
mismatch is not detected (line 52 of `crop.py` only reads the first
entry) and the forward call succeeds, storing bounds of extent 2. -/
theorem c7_counterexample :
    (cwbStartLongSize.call sampleA).bind Sample.cwbParam =
      some (ParamStore.single ([1, 3], [0, 0], [1, 2])) := by
  decide

/-- Concrete instances of the C7 failure cases. -/
theorem c7_precondition_failures_witness :
    (sampleA.image.shape.length - 1 ≠ rcPlain2.output_size.length + 1 ∧
      ({ output_size := [2, 2], fg_focus := false, fg_ratio := 0, mask_label := none,
         inverse := true } : RandomCrop).call [0] 0 [] sampleA = none) ∧
    cwbStartLongSize.output_size = some [2, 3] ∧
    ({ start := none, output_size := some [2, 3], inverse := true } :
      CropWithBoundingBox).call sampleA = none ∧
    ({ start := some [0, 0], output_size := some [2], inverse := true } :
      CropWithBoundingBox).call sampleA = none ∧
    ({ start := some [0, 0], output_size := some [2], inverse := true } :
      CropWithBoundingBox).call
      { image := { shape := [1, 3, 3], data := fun _ => 1 } } = none ∧
    mkRandomCrop (PyParam.pseq [2]) true 1 (PyParam.pscalar 4) true = none := by
  refine ⟨⟨by decide, ?_⟩, rfl, ?_, ?_, ?_, ?_⟩
  · exact c7_precondition_failures.1 _ sampleA [0] 0 [] (by decide)
  · exact c7_precondition_failures.2.1 _ sampleA [2, 3] rfl rfl (by decide)
  · exact c7_precondition_failures.2.2.1 _ sampleA [0, 0] rfl (by decide)
  · exact c7_precondition_failures.2.2.2.1 _ _ [0, 0] [2] rfl rfl (by decide) (by decide)
  · exact c7_precondition_failures.2.2.2.2 _ true 1 4 true

/-! ### C2 -/

/-- C2: after every successful forward pass of `RandomCrop`, and of
`CropWithBoundingBox` whenever `output_size` is given, the stored crop
bounds satisfy `crop_max[i] - crop_min[i] = output_size[i]` on every
spatial axis, with the channel axis prepended as `crop_min[0] = 0` and
`crop_max[0]` equal to the image channel count. -/
theorem c2_crop_extent_matches_output_size :
    (∀ (t : CropWithBoundingBox) (s : Sample) (os : List ℕ) (C : ℕ)
      (sp shp : List ℕ) (cmin cmax : List ℤ),
      s.image.shape = C :: sp →
      t.output_size = some os →
      (t.call s).bind Sample.cwbParam = some (ParamStore.single (shp, cmin, cmax)) →
      shp = C :: sp ∧ cmin.length = sp.length + 1 ∧ cmax.length = sp.length + 1 ∧
      cmin.getD 0 1 = 0 ∧ cmax.getD 0 0 = (C : ℤ) ∧
      ∀ i, i < sp.length →
        cmax.getD (i + 1) 0 - cmin.getD (i + 1) 0 = (os.getD i 0 : ℤ)) ∧
    (∀ (t : RandomCrop) (s : Sample) (draws1 draws2 : List ℤ) (r : ℚ) (C : ℕ)
      (sp shp : List ℕ) (cmin cmax : List ℤ),
      s.image.shape = C :: sp →
      (t.call draws1 r draws2 s).bind Sample.rcParam =
        some (ParamStore.single (shp, cmin, cmax)) →
      shp = C :: sp ∧ cmin.length = sp.length + 1 ∧ cmax.length = sp.length + 1 ∧
      cmin.getD 0 1 = 0 ∧ cmax.getD 0 0 = (C : ℤ) ∧
      ∀ i, i < sp.length →
        cmax.getD (i + 1) 0 - cmin.getD (i + 1) 0 = (t.output_size.getD i 0 : ℤ)) := by
  constructor
  · intro t s os C sp shp cmin cmax himg hos hcomb
    rw [Option.bind_eq_some] at hcomb
    obtain ⟨s', hcall, hparam⟩ := hcomb
    obtain ⟨bm, bM, cmSp, cMSp, hbb, hsb, hs'⟩ := cwb_call_some_inv hcall
    rw [hs', cwbResult_param himg] at hparam
    simp only [Option.some.injEq, ParamStore.single.injEq, Prod.mk.injEq] at hparam
    obtain ⟨hshp, hcmin, hcmax⟩ := hparam
    have hdim : s.image.shape.length - 1 = sp.length := by simp [himg]
    rw [hdim] at hsb
    obtain ⟨hl1, hl2, hpt⟩ := spatialBounds_some_os_inv hos hsb
    refine ⟨hshp.symm, ?_, ?_, ?_, ?_, ?_⟩
    · rw [← hcmin]; simp [hl1]
    · rw [← hcmax]; simp [hl2]
    · rw [← hcmin]; rfl
    · rw [← hcmax]; rfl
    · intro i hi
      rw [← hcmin, ← hcmax]
      simp only [List.getD_cons_succ]
      have := hpt i hi
      omega
  · intro t s draws1 draws2 r C sp shp cmin cmax himg hcomb
    rw [Option.bind_eq_some] at hcomb
    obtain ⟨s', hcall, hparam⟩ := hcomb
    obtain ⟨cmSp, cMSp, hdim0, hcm, hcM, hs'⟩ := rc_call_some_inv hcall
    rw [hs', rcResult_param himg] at hparam
    simp only [Option.some.injEq, ParamStore.single.injEq, Prod.mk.injEq] at hparam
    obtain ⟨hshp, hcmin, hcmax⟩ := hparam
    have hdim : s.image.shape.length - 1 = sp.length := by simp [himg]
    obtain ⟨hlcm, -⟩ := spatialCropMin_some_inv hcm
    obtain ⟨hlcM, hgetM⟩ := seqComp_some_inv hcM
    have hpt : ∀ i, i < sp.length →
        cMSp.getD i 0 = cmSp.getD i 0 + (t.output_size.getD i 0 : ℤ) := by
      intro i hi
      have hfi := hgetM i (by omega)
      rw [getElem?_eq_some_getD (show i < cmSp.length by omega) 0,
          getElem?_eq_some_getD (show i < t.output_size.length by omega) 0,
          getElem?_eq_some_getD (show i < cMSp.length by omega) 0] at hfi
      simp only [Option.bind_eq_bind, Option.some_bind, Option.pure_def,
        Option.some.injEq] at hfi
      exact hfi.symm
    refine ⟨hshp.symm, ?_, ?_, ?_, ?_, ?_⟩
    · rw [← hcmin]; simp; omega
    · rw [← hcmax]; simp; omega
    · rw [← hcmin]; rfl
    · rw [← hcmax]; rfl
    · intro i hi
      rw [← hcmin, ← hcmax]
      simp only [List.getD_cons_succ]
      have := hpt i hi
      omega

/-- Concrete instance of C2: the centered crop of width 2 on `sampleA`
stores bounds `[0, 2]`, `[1, 4]`, whose spatial extent is 2; the uniform
random crop of width 2 at draw 1 stores `[0, 1]`, `[1, 3]`. -/
theorem c2_crop_extent_matches_output_size_witness :
    (sampleA.image.shape = 1 :: [3] ∧
      (cwbCentered2.call sampleA).bind Sample.cwbParam =
        some (ParamStore.single ([1, 3], [0, 1], [1, 3])) ∧
      ([1, 3] : List ℤ).getD 1 0 - ([0, 1] : List ℤ).getD 1 0 = (([2] : List ℕ).getD 0 0 : ℤ)) ∧
    ((rcPlain2.call [1] 0 [] sampleA).bind Sample.rcParam =
        some (ParamStore.single ([1, 3], [0, 1], [1, 3])) ∧
      ([1, 3] : List ℤ).getD 1 0 - ([0, 1] : List ℤ).getD 1 0 =
        ((rcPlain2.output_size : List ℕ).getD 0 0 : ℤ)) := by
  refine ⟨⟨rfl, by decide, ?_⟩, by decide, ?_⟩
  · exact (c2_crop_extent_matches_output_size.1 cwbCentered2 sampleA [2] 1 [3] [1, 3]
      [0, 1] [1, 3] rfl rfl (by decide)).2.2.2.2.2 0 (by decide)
  · exact (c2_crop_extent_matches_output_size.2 rcPlain2 sampleA [1] [] 0 1 [3] [1, 3]
      [0, 1] [1, 3] rfl (by decide)).2.2.2.2.2 0 (by decide)

/-! ### C9 -/

/-- A 2-channel label array: its channel count (2) differs from the
1-channel image `imgA` it accompanies. -/
def labB : NDArray := { shape := [2, 3], data := fun _ => 3 }

/-- `imgA` together with the 2-channel label `labB`. -/
def sampleB : Sample := { image := imgA, label := some labB }

/-- C9: after every successful forward pass the stored parameter is a
single serialized triple `(original image shape, crop_min, crop_max)`
whose channel entries are `crop_min[0] = 0` and `crop_max[0]` = the
image channel count, and whose bounds are exactly the ones used to crop
the image.  In particular `crop_max[0]` records the image channel count
even when a label or weight with a different channel count was also
cropped: serialization happens (line 55/160) before the in-place
`crop_max[0]` reassignments (lines 62, 67, 167, 172). -/
theorem c9_stored_param_channel_entries :
    (∀ (t : CropWithBoundingBox) (s s' : Sample) (C : ℕ) (sp : List ℕ),
      s.image.shape = C :: sp → t.call s = some s' →
      ∃ cmSp cMSp : List ℤ,
        s'.cwbParam = some (ParamStore.single (C :: sp, 0 :: cmSp, (C : ℤ) :: cMSp)) ∧
        s'.image = crop_ND_volume_with_bounding_box s.image (0 :: cmSp) ((C : ℤ) :: cMSp)) ∧
    (∀ (t : RandomCrop) (s s' : Sample) (draws1 draws2 : List ℤ) (r : ℚ)
      (C : ℕ) (sp : List ℕ),
      s.image.shape = C :: sp → t.call draws1 r draws2 s = some s' →
      ∃ cmSp cMSp : List ℤ,
        s'.rcParam = some (ParamStore.single (C :: sp, 0 :: cmSp, (C : ℤ) :: cMSp)) ∧
        s'.image = crop_ND_volume_with_bounding_box s.image (0 :: cmSp) ((C : ℤ) :: cMSp)) := by
  constructor
  · intro t s s' C sp himg hcall
    obtain ⟨bm, bM, cmSp, cMSp, hbb, hsb, hs'⟩ := cwb_call_some_inv hcall
    exact ⟨cmSp, cMSp, by rw [hs', cwbResult_param himg], by rw [hs', cwbResult_image himg]⟩
  · intro t s s' draws1 draws2 r C sp himg hcall
    obtain ⟨cmSp, cMSp, hdim0, hcm, hcM, hs'⟩ := rc_call_some_inv hcall
    exact ⟨cmSp, cMSp, by rw [hs', rcResult_param himg], by rw [hs', rcResult_image himg]⟩

/-- Concrete instance of C9 on `sampleB`, whose label has 2 channels
while the image has 1: the stored `crop_max[0]` is still 1. -/
theorem c9_stored_param_channel_entries_witness :
    sampleB.image.shape = 1 :: [3] ∧
    rcPlain2.call [0] 0 [] sampleB = some (rcResult sampleB [0] [2]) ∧
    (∃ cmSp cMSp : List ℤ,
      (rcResult sampleB [0] [2]).rcParam =
        some (ParamStore.single (1 :: [3], 0 :: cmSp, (1 : ℤ) :: cMSp)) ∧
      (rcResult sampleB [0] [2]).image =
        crop_ND_volume_with_bounding_box sampleB.image (0 :: cmSp) ((1 : ℤ) :: cMSp)) ∧
    (rcResult sampleB [0] [2]).rcParam = some (ParamStore.single ([1, 3], [0, 0], [1, 2])) :=
  ⟨rfl, rfl,
    c9_stored_param_channel_entries.2 rcPlain2 sampleB (rcResult sampleB [0] [2])
      [0] [] 0 1 [3] rfl rfl,
    by decide⟩

/-! ### C5 -/

/-- A 1-channel image whose only nonzero voxel sits at spatial index 2. -/
def imgS : NDArray := { shape := [1, 3], data := fun idx => if idx = [0, 2] then 5 else 0 }

/-- A sample holding only `imgS`. -/
def sampleS : Sample := { image := imgS }

/-- C5: with `start` none and `output_size` given (of the spatial
length), the forward pass stores
`crop_min[i] = max(0, (bb_min[i] + bb_max[i] + 1) / 2 - output_size[i] / 2)`
(floor divisions) and `crop_max[i] = crop_min[i] + output_size[i]` on
each spatial axis, where `(bb_min, bb_max)` is the non-zero bounding box
of the image and the spatial entries are their tails. -/
theorem c5_centered_crop_min_formula (t : CropWithBoundingBox) (s : Sample)
    (os : List ℕ) (C : ℕ) (sp bm bM : List ℕ)
    (himg : s.image.shape = C :: sp)
    (hst : t.start = none) (hos : t.output_size = some os)
    (hlen : os.length = sp.length)
    (hbb : get_ND_bounding_box s.image = some (bm, bM)) :
    (t.call s).bind Sample.cwbParam =
      some (ParamStore.single (C :: sp,
        0 :: centeredCropMin bm.tail bM.tail os sp.length,
        (C : ℤ) :: (List.range sp.length).map (fun i =>
          (centeredCropMin bm.tail bM.tail os sp.length).getD i 0 + (os.getD i 0 : ℤ)))) ∧
    ∀ i, i < sp.length →
      (centeredCropMin bm.tail bM.tail os sp.length).getD i 0 =
        max 0 ((((bm.tail.getD i 0 + bM.tail.getD i 0 + 1) / 2 : ℕ) : ℤ) -
          ((os.getD i 0 / 2 : ℕ) : ℤ)) := by
  have hdim : s.image.shape.length - 1 = sp.length := by simp [himg]
  obtain ⟨hbml, hbMl⟩ := get_ND_bounding_box_lengths hbb
  have hbmt : sp.length ≤ bm.tail.length := by
    simp [List.length_tail, hbml, himg]
  have hbMt : sp.length ≤ bM.tail.length := by
    simp [List.length_tail, hbMl, himg]
  have hsb := spatialBounds_centered hst hos hlen hbmt hbMt
  have hcall := cwb_call_eq hbb (by rw [hdim]; exact hsb)
  constructor
  · rw [hcall, Option.some_bind, cwbResult_param himg]
  · intro i hi
    rw [centeredCropMin, getD_map_range hi]

/-- Concrete instance of C5: on `sampleS` (bounding box `[0,2]`-`[1,3]`)
with `output_size = [2]`, the centered window starts at
`max(0, (2+3+1)/2 - 2/2) = 2` and the stored bounds are
`[0, 2]`, `[1, 4]`. -/
theorem c5_centered_crop_min_formula_witness :
    sampleS.image.shape = 1 :: [3] ∧
    cwbCentered2.start = none ∧
    cwbCentered2.output_size = some [2] ∧
    get_ND_bounding_box sampleS.image = some ([0, 2], [1, 3]) ∧
    (cwbCentered2.call sampleS).bind Sample.cwbParam =
      some (ParamStore.single (1 :: [3],
        0 :: centeredCropMin ([0, 2] : List ℕ).tail ([1, 3] : List ℕ).tail [2] 1,
        (1 : ℤ) :: (List.range 1).map (fun i =>
          (centeredCropMin ([0, 2] : List ℕ).tail ([1, 3] : List ℕ).tail [2] 1).getD i 0 +
            (([2] : List ℕ).getD i 0 : ℤ)))) ∧
    (centeredCropMin ([0, 2] : List ℕ).tail ([1, 3] : List ℕ).tail [2] 1).getD 0 0 =
      max 0 (((((([0, 2] : List ℕ).tail.getD 0 0 + ([1, 3] : List ℕ).tail.getD 0 0 + 1) / 2 :
        ℕ)) : ℤ) - (((([2] : List ℕ).getD 0 0) / 2 : ℕ) : ℤ)) ∧
    (cwbCentered2.call sampleS).bind Sample.cwbParam =
      some (ParamStore.single ([1, 3], [0, 2], [1, 4])) := by
  refine ⟨rfl, rfl, rfl, by decide, ?_, ?_, by decide⟩
  · exact (c5_centered_crop_min_formula cwbCentered2 sampleS [2] 1 [3] [0, 2] [1, 3]
      rfl rfl rfl rfl (by decide)).1
  · exact (c5_centered_crop_min_formula cwbCentered2 sampleS [2] 1 [3] [0, 2] [1, 3]
      rfl rfl rfl rfl (by decide)).2 0 (by decide)

/-! ### C4 -/

/-- C4 (amended): after every successful forward pass of
`CropWithBoundingBox` with `start = None`, and of `RandomCrop`, every
entry of the stored `crop_min` is nonnegative; and for `RandomCrop` the
stored spatial `crop_max[i]` never exceeds the input spatial shape.
With an explicit `start`, `crop_min = start` is stored unclamped and may
be negative, and the centered branch of `CropWithBoundingBox` clamps
only at zero, so its `crop_max` may exceed the input shape (see the
counterexample). -/
theorem c4_amended_clamping :
    (∀ (t : CropWithBoundingBox) (s : Sample) (shp : List ℕ) (cmin cmax : List ℤ),
      t.start = none →
      (t.call s).bind Sample.cwbParam = some (ParamStore.single (shp, cmin, cmax)) →
      ∀ x ∈ cmin, 0 ≤ x) ∧
    (∀ (t : RandomCrop) (s : Sample) (draws1 draws2 : List ℤ) (r : ℚ) (C : ℕ)
      (sp shp : List ℕ) (cmin cmax : List ℤ),
      s.image.shape = C :: sp →
      (t.call draws1 r draws2 s).bind Sample.rcParam =
        some (ParamStore.single (shp, cmin, cmax)) →
      (∀ x ∈ cmin, 0 ≤ x) ∧
      ∀ i, i < sp.length → cmax.getD (i + 1) 0 ≤ (sp.getD i 0 : ℤ)) := by
  constructor
  · intro t s shp cmin cmax hst hcomb
    rw [Option.bind_eq_some] at hcomb
    obtain ⟨s', hcall, hparam⟩ := hcomb
    obtain ⟨bm, bM, cmSp, cMSp, hbb, hsb, hs'⟩ := cwb_call_some_inv hcall
    rw [hs'] at hparam
    simp only [cwbResult, Option.some.injEq, ParamStore.single.injEq, Prod.mk.injEq]
      at hparam
    obtain ⟨-, hcmin, -⟩ := hparam
    intro x hx
    rw [← hcmin] at hx
    rcases List.mem_cons.mp hx with h0 | h0
    · omega
    · exact spatialBounds_startnone_nonneg hst hsb x h0
  · intro t s draws1 draws2 r C sp shp cmin cmax himg hcomb
    rw [Option.bind_eq_some] at hcomb
    obtain ⟨s', hcall, hparam⟩ := hcomb
    obtain ⟨cmSp, cMSp, hdim0, hcm, hcM, hs'⟩ := rc_call_some_inv hcall
    rw [hs', rcResult_param himg] at hparam
    simp only [Option.some.injEq, ParamStore.single.injEq, Prod.mk.injEq] at hparam
    obtain ⟨-, hcmin, hcmax⟩ := hparam
    have hdim : s.image.shape.length - 1 = sp.length := by simp [himg]
    obtain ⟨hlcm, hbnd⟩ := spatialCropMin_some_inv hcm
    obtain ⟨hlcM, hgetM⟩ := seqComp_some_inv hcM
    have hS : ∀ j, j < sp.length → s.image.shape.getD (j + 1) 0 = sp.getD j 0 := by
      intro j hj
      rw [himg]
      exact List.getD_cons_succ
    constructor
    · intro x hx
      rw [← hcmin] at hx
      rcases List.mem_cons.mp hx with h0 | h0
      · omega
      · obtain ⟨j, hj, hjx⟩ := List.mem_iff_getElem.mp h0
        have := (hbnd j (by omega)).1
        rw [getD_of_getElem?_some (List.getElem?_eq_getElem hj)] at this
        omega
    · intro i hi
      rw [← hcmax]
      simp only [List.getD_cons_succ]
      have hfi := hgetM i (by omega)
      rw [getElem?_eq_some_getD (show i < cmSp.length by omega) 0,
          getElem?_eq_some_getD (show i < t.output_size.length by omega) 0,
          getElem?_eq_some_getD (show i < cMSp.length by omega) 0] at hfi
      simp only [Option.bind_eq_bind, Option.some_bind, Option.pure_def,
        Option.some.injEq] at hfi
      have hb := (hbnd i (by omega)).2
      rw [hS i hi] at hb
      omega

/-- Counterexample to C4 as stated: an explicit `start = [-1]` is stored
unclamped (spatial `crop_min = -1 < 0`), and the centered branch on
`sampleS` (only voxel at spatial index 2, window 2) stores spatial
`crop_max = 4 > 3`, the input spatial extent. -/
theorem c4_counterexample :
    ((cwbStartNeg.call sampleA).bind Sample.cwbParam =
        some (ParamStore.single ([1, 3], [0, -1], [1, 1])) ∧
      ([0, -1] : List ℤ).getD 1 0 < 0) ∧
    ((cwbCentered2.call sampleS).bind Sample.cwbParam =
        some (ParamStore.single ([1, 3], [0, 2], [1, 4])) ∧
      (3 : ℤ) < ([1, 4] : List ℤ).getD 1 0) := by
  constructor
  · exact ⟨by decide, by decide⟩
  · exact ⟨by decide, by decide⟩

/-- Concrete instance of the amended C4: the centered crop on `sampleS`
stores nonnegative `crop_min` entries, and the random crop of width 2 at
draw 1 on `sampleA` stores `crop_max[1] = 3 ≤ 3`. -/
theorem c4_amended_clamping_witness :
    cwbCentered2.start = none ∧
    (cwbCentered2.call sampleS).bind Sample.cwbParam =
      some (ParamStore.single ([1, 3], [0, 2], [1, 4])) ∧
    (0 : ℤ) ≤ ([0, 2] : List ℤ).getD 1 0 ∧
    (rcPlain2.call [1] 0 [] sampleA).bind Sample.rcParam =
      some (ParamStore.single ([1, 3], [0, 1], [1, 3])) ∧
    (0 : ℤ) ≤ ([0, 1] : List ℤ).getD 1 0 ∧
    ([1, 3] : List ℤ).getD 1 0 ≤ (([3] : List ℕ).getD 0 0 : ℤ) := by
  refine ⟨rfl, by decide, ?_, by decide, ?_, ?_⟩
  · exact c4_amended_clamping.1 cwbCentered2 sampleS [1, 3] [0, 2] [1, 4] rfl (by decide)
      (([0, 2] : List ℤ).getD 1 0) (by decide)
  · exact (c4_amended_clamping.2 rcPlain2 sampleA [1] [] 0 1 [3] [1, 3] [0, 1] [1, 3]
      rfl (by decide)).1 (([0, 1] : List ℤ).getD 1 0) (by decide)
  · exact (c4_amended_clamping.2 rcPlain2 sampleA [1] [] 0 1 [3] [1, 3] [0, 1] [1, 3]
      rfl (by decide)).2 0 (by decide)

/-! ### C10 -/

/-- C10: both inverse transforms accept the stored crop parameter either
as one serialized triple or as a list of them; in the list case only
element 0 is parsed, so the reconstruction is identical to the one
obtained from the first element alone and later elements are ignored. -/
theorem c10_inverse_parses_first_param :
    (∀ (t : CropWithBoundingBox) (s : Sample) (p : CropParam) (rest : List CropParam),
      s.cwbParam = some (ParamStore.plural (p :: rest)) →
      (t.inverse_transform_for_prediction s).map Sample.predict =
        (t.inverse_transform_for_prediction
          { s with cwbParam := some (ParamStore.single p) }).map Sample.predict) ∧
    (∀ (t : RandomCrop) (s : Sample) (p : CropParam) (rest : List CropParam),
      s.rcParam = some (ParamStore.plural (p :: rest)) →
      (t.inverse_transform_for_prediction s).map Sample.predict =
        (t.inverse_transform_for_prediction
          { s with rcParam := some (ParamStore.single p) }).map Sample.predict) := by
  constructor
  · intro t s p rest hp
    cases hpred : s.predict with
    | none => simp [CropWithBoundingBox.inverse_transform_for_prediction, hp, hpred]
    | some pr =>
      cases pr with
      | single a => simp [CropWithBoundingBox.inverse_transform_for_prediction, hp, hpred]
      | plural items => simp [CropWithBoundingBox.inverse_transform_for_prediction, hp, hpred]
  · intro t s p rest hp
    cases hpred : s.predict with
    | none => simp [RandomCrop.inverse_transform_for_prediction, hp, hpred]
    | some pr =>
      cases pr with
      | single a => simp [RandomCrop.inverse_transform_for_prediction, hp, hpred]
      | plural items => simp [RandomCrop.inverse_transform_for_prediction, hp, hpred]

/-- A tiny prediction array of shape `[1, 1, 2]`. -/
def predA : NDArray := { shape := [1, 1, 2], data := fun _ => 5 }

/-- A sample carrying two serialized crop parameters (the second one
bogus) and a single prediction. -/
def sampleP : Sample :=
  { image := imgA,
    cwbParam := some (ParamStore.plural [([1, 3], [0, 1], [1, 3]), ([9], [7], [8])]),
    rcParam := some (ParamStore.plural [([1, 3], [0, 1], [1, 3]), ([9], [7], [8])]),
    predict := some (Predict.single predA) }

/-- Concrete instance of C10 on `sampleP`: the bogus second parameter is
ignored by both inverses. -/
theorem c10_inverse_parses_first_param_witness :
    sampleP.cwbParam = some (ParamStore.plural [([1, 3], [0, 1], [1, 3]), ([9], [7], [8])]) ∧
    (CropWithBoundingBox.inverse_transform_for_prediction cwbCentered2 sampleP).map
        Sample.predict =
      (CropWithBoundingBox.inverse_transform_for_prediction cwbCentered2
        { sampleP with cwbParam := some (ParamStore.single ([1, 3], [0, 1], [1, 3])) }).map
        Sample.predict ∧
    (RandomCrop.inverse_transform_for_prediction rcPlain2 sampleP).map Sample.predict =
      (RandomCrop.inverse_transform_for_prediction rcPlain2
        { sampleP with rcParam := some (ParamStore.single ([1, 3], [0, 1], [1, 3])) }).map
        Sample.predict :=
  ⟨rfl,
    c10_inverse_parses_first_param.1 cwbCentered2 sampleP ([1, 3], [0, 1], [1, 3])
      [([9], [7], [8])] rfl,
    c10_inverse_parses_first_param.2 rcPlain2 sampleP ([1, 3], [0, 1], [1, 3])
      [([9], [7], [8])] rfl⟩

/-! ### C8 -/

theorem cropLabelWeight_cases (arr? : Option NDArray) (ishape : List ℕ) (cmin : List ℤ)
    (hd : ℤ) (rest : List ℤ) :
    (arr? = none → (cropLabelWeight arr? ishape cmin (hd :: rest)).1 = none) ∧
    (∀ arr, arr? = some arr → arr.shape.tail = ishape.tail →
      (cropLabelWeight arr? ishape cmin (hd :: rest)).1 =
        some (crop_ND_volume_with_bounding_box arr cmin
          ((arr.shape.headD 0 : ℤ) :: rest))) ∧
    (∀ arr, arr? = some arr → arr.shape.tail ≠ ishape.tail →
      (cropLabelWeight arr? ishape cmin (hd :: rest)).1 = some arr) ∧
    (∃ hd2 : ℤ, (cropLabelWeight arr? ishape cmin (hd :: rest)).2 = hd2 :: rest) := by
  refine ⟨?_, ?_, ?_, ?_⟩
  · intro h
    rw [h]
    rfl
  · intro arr h hmatch
    rw [h]
    simp [cropLabelWeight, hmatch]
  · intro arr h hmiss
    rw [h]
    simp [cropLabelWeight, hmiss]
  · cases arr? with
    | none => exact ⟨hd, rfl⟩
    | some arr =>
      by_cases hmatch : arr.shape.tail = ishape.tail
      · exact ⟨(arr.shape.headD 0 : ℤ), by simp [cropLabelWeight, hmatch]⟩
      · exact ⟨hd, by simp [cropLabelWeight, hmatch]⟩

theorem cwbResult_label_weight {s : Sample} {cmSp cMSp : List ℤ} {C : ℕ} {sp : List ℕ}
    (himg : s.image.shape = C :: sp) :
    (cwbResult s cmSp cMSp).label =
      (cropLabelWeight s.label s.image.shape (0 :: cmSp) ((C : ℤ) :: cMSp)).1 ∧
    (cwbResult s cmSp cMSp).weight =
      (cropLabelWeight s.weight s.image.shape (0 :: cmSp)
        (cropLabelWeight s.label s.image.shape (0 :: cmSp) ((C : ℤ) :: cMSp)).2).1 := by
  constructor <;> simp [cwbResult, himg]

theorem rcResult_label_weight {s : Sample} {cmSp cMSp : List ℤ} {C : ℕ} {sp : List ℕ}
    (himg : s.image.shape = C :: sp) :
    (rcResult s cmSp cMSp).label =
      (cropLabelWeight s.label s.image.shape (0 :: cmSp) ((C : ℤ) :: cMSp)).1 ∧
    (rcResult s cmSp cMSp).weight =
      (cropLabelWeight s.weight s.image.shape (0 :: cmSp)
        (cropLabelWeight s.label s.image.shape (0 :: cmSp) ((C : ℤ) :: cMSp)).2).1 := by
  constructor <;> simp [rcResult, himg]

/-- C8 helper: the label and weight facts shared by both transforms,
phrased over the stored spatial bounds. -/
def labelWeightSpec (s s' : Sample) (sp : List ℕ) (cmSp cMSp : List ℤ) : Prop :=
  (s.label = none → s'.label = none) ∧
  (∀ lab, s.label = some lab → lab.shape.tail = sp →
    s'.label = some (crop_ND_volume_with_bounding_box lab (0 :: cmSp)
      ((lab.shape.headD 0 : ℤ) :: cMSp))) ∧
  (∀ lab, s.label = some lab → lab.shape.tail ≠ sp → s'.label = some lab) ∧
  (s.weight = none → s'.weight = none) ∧
  (∀ w, s.weight = some w → w.shape.tail = sp →
    s'.weight = some (crop_ND_volume_with_bounding_box w (0 :: cmSp)
      ((w.shape.headD 0 : ℤ) :: cMSp))) ∧
  (∀ w, s.weight = some w → w.shape.tail ≠ sp → s'.weight = some w)

theorem labelWeightSpec_of_result {s s' : Sample} {sp : List ℕ} {cmSp cMSp : List ℤ}
    {C : ℕ} (himg : s.image.shape = C :: sp)
    (hlab : s'.label =
      (cropLabelWeight s.label s.image.shape (0 :: cmSp) ((C : ℤ) :: cMSp)).1)
    (hwt : s'.weight =
      (cropLabelWeight s.weight s.image.shape (0 :: cmSp)
        (cropLabelWeight s.label s.image.shape (0 :: cmSp) ((C : ℤ) :: cMSp)).2).1) :
    labelWeightSpec s s' sp cmSp cMSp := by
  have htail : s.image.shape.tail = sp := by rw [himg]; rfl
  obtain ⟨hn, hm, hx, hsnd⟩ :=
    cropLabelWeight_cases s.label s.image.shape (0 :: cmSp) ((C : ℤ)) cMSp
  obtain ⟨hd2, hhd2⟩ := hsnd
  refine ⟨?_, ?_, ?_, ?_, ?_, ?_⟩
  · intro h
    rw [hlab, hn h]
  · intro lab h hm2
    rw [hlab, hm lab h (by rw [htail]; exact hm2)]
  · intro lab h hm2
    rw [hlab, hx lab h (by rw [htail]; exact hm2)]
  · intro h
    rw [hwt, hhd2]
    exact (cropLabelWeight_cases s.weight s.image.shape (0 :: cmSp) hd2 cMSp).1 h
  · intro w h hm2
    rw [hwt, hhd2]
    exact (cropLabelWeight_cases s.weight s.image.shape (0 :: cmSp) hd2 cMSp).2.1 w h
      (by rw [htail]; exact hm2)
  · intro w h hm2
    rw [hwt, hhd2]
    exact (cropLabelWeight_cases s.weight s.image.shape (0 :: cmSp) hd2 cMSp).2.2.1 w h
      (by rw [htail]; exact hm2)

/-- C8: both forward passes replace the label (respectively weight)
array with its cropped version exactly when its spatial shape (all axes
but the channel axis) equals the original image's spatial shape, the
crop using the array's own channel count as channel bound; otherwise the
entry is left unchanged. -/
theorem c8_label_weight_cropped_iff_spatial_match :
    (∀ (t : CropWithBoundingBox) (s s' : Sample) (C : ℕ) (sp : List ℕ),
      s.image.shape = C :: sp → t.call s = some s' →
      ∃ cmSp cMSp : List ℤ,
        s'.cwbParam = some (ParamStore.single (C :: sp, 0 :: cmSp, (C : ℤ) :: cMSp)) ∧
        labelWeightSpec s s' sp cmSp cMSp) ∧
    (∀ (t : RandomCrop) (s s' : Sample) (draws1 draws2 : List ℤ) (r : ℚ)
      (C : ℕ) (sp : List ℕ),
      s.image.shape = C :: sp → t.call draws1 r draws2 s = some s' →
      ∃ cmSp cMSp : List ℤ,
        s'.rcParam = some (ParamStore.single (C :: sp, 0 :: cmSp, (C : ℤ) :: cMSp)) ∧
        labelWeightSpec s s' sp cmSp cMSp) := by
  constructor
  · intro t s s' C sp himg hcall
    obtain ⟨bm, bM, cmSp, cMSp, hbb, hsb, hs'⟩ := cwb_call_some_inv hcall
    obtain ⟨hlab, hwt⟩ := @cwbResult_label_weight s cmSp cMSp C sp himg
    refine ⟨cmSp, cMSp, by rw [hs', cwbResult_param himg], ?_⟩
    exact labelWeightSpec_of_result himg (by rw [hs']; exact hlab) (by rw [hs']; exact hwt)
  · intro t s s' draws1 draws2 r C sp himg hcall
    obtain ⟨cmSp, cMSp, hdim0, hcm, hcM, hs'⟩ := rc_call_some_inv hcall
    obtain ⟨hlab, hwt⟩ := @rcResult_label_weight s cmSp cMSp C sp himg
    refine ⟨cmSp, cMSp, by rw [hs', rcResult_param himg], ?_⟩
    exact labelWeightSpec_of_result himg (by rw [hs']; exact hlab) (by rw [hs']; exact hwt)

/-- A weight array whose spatial shape (4) differs from the image's (3). -/
def wtMis : NDArray := { shape := [1, 4], data := fun _ => 7 }

/-- `imgA` with a spatially matching 2-channel label and a spatially
mismatching weight. -/
def sampleLW : Sample := { image := imgA, label := some labB, weight := some wtMis }

/-- Concrete instance of C8 on `sampleLW`: the label (matching spatial
shape, 2 channels) is cropped with its own channel count; the weight
(mismatching spatial shape) is left untouched. -/
theorem c8_label_weight_cropped_iff_spatial_match_witness :
    sampleLW.image.shape = 1 :: [3] ∧
    rcPlain2.call [0] 0 [] sampleLW = some (rcResult sampleLW [0] [2]) ∧
    labB.shape.tail = [3] ∧
    ¬ wtMis.shape.tail = [3] ∧
    (rcResult sampleLW [0] [2]).label =
      some (crop_ND_volume_with_bounding_box labB (0 :: [0]) ((2 : ℤ) :: [2])) ∧
    (rcResult sampleLW [0] [2]).weight = some wtMis ∧
    (∃ cmSp cMSp : List ℤ,
      (rcResult sampleLW [0] [2]).rcParam =
        some (ParamStore.single (1 :: [3], 0 :: cmSp, (1 : ℤ) :: cMSp)) ∧
      labelWeightSpec sampleLW (rcResult sampleLW [0] [2]) [3] cmSp cMSp) := by
  refine ⟨rfl, rfl, by decide, by decide, rfl, rfl, ?_⟩
  exact c8_label_weight_cropped_iff_spatial_match.2 rcPlain2 sampleLW
    (rcResult sampleLW [0] [2]) [0] [] 0 1 [3] rfl rfl

/-! ### C6 -/

theorem getD_map_add_one {l : List ℕ} {j : ℕ} (h : j < l.length) :
    (l.map (fun x => x + 1)).getD j 0 = l.getD j 0 + 1 := by
  rw [List.getD_eq_getElem?_getD, List.getElem?_map, List.getElem?_eq_getElem h,
      List.getD_eq_getElem?_getD, List.getElem?_eq_getElem h]
  rfl

/-- Per-axis containment: a clamped, centered draw from
`[q, q + 1]` with window `o ≥ 2` keeps the voxel `q < S` inside the
window. -/
theorem fg_axis_contains (q S o : ℕ) (d cm : ℤ)
    (ho2 : 2 ≤ o) (hq : q < S)
    (hdl : (q : ℤ) ≤ d) (hdu : d ≤ (q : ℤ) + 1)
    (hcm : cm = min (max 0 (d - ((o / 2 : ℕ) : ℤ))) ((S : ℤ) - (o : ℤ))) :
    cm ≤ (q : ℤ) ∧ (q : ℤ) < cm + (o : ℤ) := by
  omega

/-- The spatial `crop_min` produced by the foreground branch, as a
function of the configuration, the spatial input shape and the
foreground draws. -/
def fgSpatialMin (os sp : List ℕ) (draws2 : List ℤ) : List ℤ :=
  (List.range sp.length).map (fun j =>
    min (max 0 (draws2.getD j 0 - ((os.getD j 0 / 2 : ℕ) : ℤ)))
        ((sp.getD j 0 : ℤ) - (os.getD j 0 : ℤ)))

/-- The matching spatial `crop_max`. -/
def fgSpatialMax (os sp : List ℕ) (draws2 : List ℤ) : List ℤ :=
  (List.range sp.length).map (fun j =>
    (fgSpatialMin os sp draws2).getD j 0 + (os.getD j 0 : ℤ))

/-- C6 (amended): on a sample whose label has exactly one voxel carrying
a `mask_label` value, at spatial coordinates `pt`, `RandomCrop` with
`fg_focus = true` and `fg_ratio = 1` (so the foreground branch is taken
for every `random.random()` outcome `r < 1`) produces, for every outcome
of the random draws, crop bounds that contain `pt` — provided every
`output_size[i] ≥ 2`.  With an `output_size` entry of 1 or 0 the voxel
can be missed, because the foreground draw ranges up to the exclusive
bounding-box end `pt + 1` and the centering offset `output_size/2` is 0
(see the counterexample). -/
theorem c6_fg_focus_contains_voxel (t : RandomCrop) (s : Sample)
    (C CL : ℕ) (sp : List ℕ) (lab : NDArray) (mls : List ℤ)
    (p0 : ℕ) (pt : List ℕ) (draws1 draws2 : List ℤ) (r : ℚ)
    (himg : s.image.shape = C :: sp)
    (hlab : s.label = some lab)
    (hlabshape : lab.shape = CL :: sp)
    (hfg : t.fg_focus = true) (hratio : t.fg_ratio = 1) (hr : r < 1)
    (hml : t.mask_label = some mls)
    (hp : nonzeroIndices (fgMask lab mls) = [p0 :: pt])
    (hoslen : t.output_size.length = sp.length)
    (hos : ∀ i, i < sp.length →
      2 ≤ t.output_size.getD i 0 ∧ t.output_size.getD i 0 ≤ sp.getD i 0)
    (hd1len : sp.length ≤ draws1.length)
    (hd1 : ∀ i, i < sp.length → 0 ≤ draws1.getD i 0 ∧
      draws1.getD i 0 ≤ (sp.getD i 0 : ℤ) - (t.output_size.getD i 0 : ℤ))
    (hd2len : sp.length ≤ draws2.length)
    (hd2 : ∀ i, i < sp.length → (pt.getD i 0 : ℤ) ≤ draws2.getD i 0 ∧
      draws2.getD i 0 ≤ (pt.getD i 0 : ℤ) + 1) :
    t.call draws1 r draws2 s =
      some (rcResult s (fgSpatialMin t.output_size sp draws2)
        (fgSpatialMax t.output_size sp draws2)) ∧
    ∀ i, i < sp.length →
      (fgSpatialMin t.output_size sp draws2).getD i 0 ≤ (pt.getD i 0 : ℤ) ∧
      (pt.getD i 0 : ℤ) < (fgSpatialMax t.output_size sp draws2).getD i 0 := by
  have hdim : s.image.shape.length - 1 = sp.length := by simp [himg]
  have hmaskshape : (fgMask lab mls).shape = CL :: sp := hlabshape
  obtain ⟨hplen, hpcomp⟩ := nonzeroIndices_single_mem hp
  rw [hmaskshape] at hplen hpcomp
  have hptlen : pt.length = sp.length := by simpa using hplen
  have hsum : ¬ ndsum (fgMask lab mls) = 0 :=
    ndsum_ne_zero_of_single (fgMask_zero_or_one lab mls) hp
  have hbb : get_ND_bounding_box (fgMask lab mls) =
      some (p0 :: pt, (p0 :: pt).map (fun x => x + 1)) :=
    get_ND_bounding_box_single hp (by rw [hmaskshape]; simpa using hplen)
  have hq : ∀ i, i < sp.length → pt.getD i 0 < sp.getD i 0 := by
    intro i hi
    have := hpcomp (i + 1) (by simp; omega)
    simpa using this
  have hSgetD : ∀ j, s.image.shape.getD (j + 1) 0 = sp.getD j 0 := by
    intro j
    rw [himg]
    exact List.getD_cons_succ
  have hcm : t.spatialCropMin s.image.shape (s.image.shape.length - 1) s.label
      draws1 r draws2 = some (fgSpatialMin t.output_size sp draws2) := by
    rw [hlab, hdim]
    have hlemma := @spatialCropMin_fg t s.image.shape sp.length lab mls draws1 draws2 r
      (p0 :: pt) ((p0 :: pt).map (fun x => x + 1))
      ⟨hfg, by rw [hratio]; exact_mod_cast hr⟩ hml hsum hbb
      (by rw [himg]; simp)
      (by omega) hd1len
      (by intro j hj
          rw [hSgetD j]
          exact hd1 j hj)
      (by simp; omega) (by simp [hptlen]) hd2len
      (by intro j hj
          simp only [List.map_cons, List.tail_cons]
          constructor
          · exact (hd2 j hj).1
          · rw [getD_map_add_one (by omega)]
            push_cast
            exact (hd2 j hj).2)
    rw [hlemma]
    congr 1
    unfold fgSpatialMin
    apply List.map_congr_left
    intro j hj
    rw [hSgetD j]
  have hcM : seqComp (s.image.shape.length - 1) (fun i => do
      let c ← (fgSpatialMin t.output_size sp draws2)[i]?
      let o ← t.output_size[i]?
      pure (c + (o : ℤ))) = some (fgSpatialMax t.output_size sp draws2) := by
    rw [hdim]
    have := @cropMaxSp_eq (fgSpatialMin t.output_size sp draws2) t.output_size sp.length
      (by simp [fgSpatialMin]) (by omega)
    rw [this]
    rfl
  constructor
  · exact rc_call_eq (by omega) hcm hcM
  · intro i hi
    have hcmval : (fgSpatialMin t.output_size sp draws2).getD i 0 =
        min (max 0 (draws2.getD i 0 - ((t.output_size.getD i 0 / 2 : ℕ) : ℤ)))
            ((sp.getD i 0 : ℤ) - (t.output_size.getD i 0 : ℤ)) := by
      unfold fgSpatialMin
      rw [getD_map_range hi]
    have hcMval : (fgSpatialMax t.output_size sp draws2).getD i 0 =
        (fgSpatialMin t.output_size sp draws2).getD i 0 +
          (t.output_size.getD i 0 : ℤ) := by
      unfold fgSpatialMax
      rw [getD_map_range hi]
    have hax := fg_axis_contains (pt.getD i 0) (sp.getD i 0) (t.output_size.getD i 0)
      (draws2.getD i 0) ((fgSpatialMin t.output_size sp draws2).getD i 0)
      (hos i hi).1 (hq i hi) (hd2 i hi).1 (hd2 i hi).2 hcmval
    exact ⟨hax.1, by rw [hcMval]; exact hax.2⟩

/-- A 2-voxel image, all nonzero. -/
def imgC6 : NDArray := { shape := [1, 2], data := fun _ => 1 }

/-- A label on `imgC6` whose only foreground voxel (value 1) sits at
spatial index 0. -/
def labC6 : NDArray := { shape := [1, 2], data := fun idx => if idx = [0, 0] then 1 else 0 }

/-- `imgC6` with label `labC6`. -/
def sC6 : Sample := { image := imgC6, label := some labC6 }

/-- `RandomCrop` with window 1, certain foreground focus on label 1. -/
def rcFg1 : RandomCrop :=
  { output_size := [1], fg_focus := true, fg_ratio := 1, mask_label := some [1],
    inverse := true }

/-- Counterexample to C6 as stated: with `output_size = [1]` the
foreground draw may land one voxel past the unique foreground voxel
(spatial index 0); the draw 1 is inside the `randint(bb_min, bb_max)`
range because `bb_max` is the exclusive box end, and yields crop bounds
`[1, 2)` that do not contain the voxel. -/
theorem c6_counterexample :
    nonzeroIndices (fgMask labC6 [1]) = [[0, 0]] ∧
    (rcFg1.call [0] 0 [1] sC6).bind Sample.rcParam =
      some (ParamStore.single ([1, 2], [0, 1], [1, 2])) ∧
    ¬ (([0, 1] : List ℤ).getD 1 0 ≤ ((([0, 0] : List ℕ).getD 1 0 : ℕ) : ℤ)) := by
  refine ⟨by decide, by decide, by decide⟩

/-- A label on `imgA` whose only foreground voxel sits at spatial index 1. -/
def labW : NDArray := { shape := [1, 3], data := fun idx => if idx = [0, 1] then 1 else 0 }

/-- `imgA` with label `labW`. -/
def sW : Sample := { image := imgA, label := some labW }

/-- `RandomCrop` with window 2, certain foreground focus on label 1. -/
def rcFg2 : RandomCrop :=
  { output_size := [2], fg_focus := true, fg_ratio := 1, mask_label := some [1],
    inverse := true }

/-- Concrete instance of the amended C6: window 2 around the voxel at
spatial index 1, worst-case draw 2, still contains the voxel. -/
theorem c6_fg_focus_contains_voxel_witness :
    nonzeroIndices (fgMask labW [1]) = [[0, 1]] ∧
    rcFg2.call [0] 0 [2] sW =
      some (rcResult sW (fgSpatialMin [2] [3] [2]) (fgSpatialMax [2] [3] [2])) ∧
    ((fgSpatialMin [2] [3] [2]).getD 0 0 ≤ ((1 : ℕ) : ℤ) ∧
      ((1 : ℕ) : ℤ) < (fgSpatialMax [2] [3] [2]).getD 0 0) := by
  have h := c6_fg_focus_contains_voxel rcFg2 sW 1 1 [3] labW [1] 0 [1] [0] [2] 0
    rfl rfl rfl rfl rfl (by norm_num) rfl (by decide) (by decide)
    (by intro i hi
        have hi0 : i = 0 := by simp at hi; omega
        subst hi0
        exact ⟨by decide, by decide⟩)
    (by decide)
    (by intro i hi
        have hi0 : i = 0 := by simp at hi; omega
        subst hi0
        exact ⟨by decide, by decide⟩)
    (by decide)
    (by intro i hi
        have hi0 : i = 0 := by simp at hi; omega
        subst hi0
        exact ⟨by decide, by decide⟩)
  exact ⟨by decide, h.1, h.2 0 (by decide)⟩

/-! ### C1 -/

/-- The value of a sample's single-array prediction at an index. -/
def singlePredictData (s : Sample) (idx : List ℕ) : Option ℤ :=
  match s.predict with
  | some (Predict.single a) => some (a.data idx)
  | _ => none

theorem inBox_true_facts (bm bM : List ℤ) (idx : List ℕ) :
    inBox bm bM idx = true →
      bm.length = idx.length ∧ bM.length = idx.length ∧
      ∀ j, j < idx.length →
        bm.getD j 0 ≤ (idx.getD j 0 : ℤ) ∧ (idx.getD j 0 : ℤ) < bM.getD j 0 := by
  induction idx generalizing bm bM with
  | nil =>
    intro h
    cases bm with
    | nil =>
      cases bM with
      | nil => exact ⟨rfl, rfl, fun j hj => absurd hj (by simp at hj)⟩
      | cons bb bMs => simp [inBox] at h
    | cons b bms => cases bM <;> simp [inBox] at h
  | cons i idxt ih =>
    intro h
    cases bm with
    | nil => cases bM <;> simp [inBox] at h
    | cons b bms =>
      cases bM with
      | nil => simp [inBox] at h
      | cons bb bMs =>
        simp only [inBox, Bool.and_eq_true, decide_eq_true_eq] at h
        obtain ⟨⟨h1, h2⟩, h3⟩ := h
        obtain ⟨hl1, hl2, hpt⟩ := ih bms bMs h3
        refine ⟨by simp [hl1], by simp [hl2], ?_⟩
        intro j hj
        cases j with
        | zero => exact ⟨h1, h2⟩
        | succ j2 =>
          simp only [List.getD_cons_succ]
          exact hpt j2 (by simpa using hj)

theorem zip_sub_add_cancel :
    ∀ (q : List ℕ) (m : List ℤ),
    (∀ j, j < q.length → 0 ≤ m.getD j 0 ∧ m.getD j 0 ≤ (q.getD j 0 : ℤ)) →
    m.length = q.length →
    List.zipWith (fun (i : ℕ) (bm : ℤ) => ((i : ℤ) + bm).toNat)
      (List.zipWith (fun (i : ℕ) (bm : ℤ) => ((i : ℤ) - bm).toNat) q m) m = q := by
  intro q
  induction q with
  | nil => intro m _ _; rfl
  | cons a qt ih =>
    intro m hpt hlen
    cases m with
    | nil => simp at hlen
    | cons b ms =>
      rw [List.zipWith_cons_cons, List.zipWith_cons_cons]
      have h0 := hpt 0 (by simp)
      simp only [List.getD_cons_zero] at h0
      congr 1
      · omega
      · exact ih ms (fun j hj => by simpa using hpt (j + 1) (by simpa using hj))
          (by simpa using hlen)

/-- Round-trip core: cropping an image at `[0 :: m, C :: M)`, prepending
a batch axis, and re-inserting through the inverse reconstruction yields
the original image values inside the (batch- and channel-extended)
recorded box and zero outside it. -/
theorem reconstruct_roundtrip (image : NDArray) (C : ℕ) (sp : List ℕ)
    (m M : List ℤ)
    (hm0 : ∀ x ∈ m, 0 ≤ x) :
    ∀ idx : List ℕ,
      (inBox (0 :: 0 :: m) (1 :: (C : ℤ) :: M) idx = true →
        ((reconstructOne (C :: sp) (0 :: m) ((C : ℤ) :: M)
          (withBatch (crop_ND_volume_with_bounding_box image (0 :: m)
            ((C : ℤ) :: M)))).2.2.2).data idx = image.data idx.tail) ∧
      (inBox (0 :: 0 :: m) (1 :: (C : ℤ) :: M) idx = false →
        ((reconstructOne (C :: sp) (0 :: m) ((C : ℤ) :: M)
          (withBatch (crop_ND_volume_with_bounding_box image (0 :: m)
            ((C : ℤ) :: M)))).2.2.2).data idx = 0) := by
  have hcropshape : (crop_ND_volume_with_bounding_box image (0 :: m) ((C : ℤ) :: M)).shape =
      C :: List.zipWith (fun bM bm => (bM - bm).toNat) M m := by
    simp [crop_ND_volume_with_bounding_box]
  have hpred2 : (withBatch (crop_ND_volume_with_bounding_box image (0 :: m)
      ((C : ℤ) :: M))).shape.take 2 = [1, C] := by
    simp [withBatch, hcropshape]
  have hout : (reconstructOne (C :: sp) (0 :: m) ((C : ℤ) :: M)
      (withBatch (crop_ND_volume_with_bounding_box image (0 :: m) ((C : ℤ) :: M)))).2.2.2 =
      set_ND_volume_roi_with_bounding_box_range (NDArray.zeros ([1, C] ++ sp))
        (0 :: 0 :: m) (1 :: (C : ℤ) :: M)
        (withBatch (crop_ND_volume_with_bounding_box image (0 :: m) ((C : ℤ) :: M))) := by
    simp [reconstructOne, hpred2]
  intro idx
  constructor
  · intro hin
    obtain ⟨hl1, hl2, hpt⟩ := inBox_true_facts _ _ _ hin
    cases idx with
    | nil => simp at hl1
    | cons b idx1 =>
      cases idx1 with
      | nil => simp at hl1
      | cons c q =>
        have hlenq : m.length = q.length := by simpa using hl1
        have hb : b = 0 := by
          have h0 := hpt 0 (by simp)
          simp only [List.getD_cons_zero] at h0
          omega
        subst hb
        have hq : ∀ j, j < q.length →
            m.getD j 0 ≤ (q.getD j 0 : ℤ) ∧ (q.getD j 0 : ℤ) < M.getD j 0 := by
          intro j hj
          have h2 := hpt (j + 2) (by simp; omega)
          simpa using h2
        rw [hout]
        simp only [set_ND_volume_roi_with_bounding_box_range, hin, if_true]
        simp only [List.zipWith_cons_cons, withBatch, crop_ND_volume_with_bounding_box]
        have hcancel := zip_sub_add_cancel q m
          (fun j hj => ⟨by
              have : m.getD j 0 ∈ m := by
                rw [List.getD_eq_getElem?_getD, List.getElem?_eq_getElem (by omega)]
                exact List.getElem_mem (l := m) (by omega)
              exact hm0 _ this,
            (hq j hj).1⟩) hlenq
        simp only [List.tail_cons]
        rw [show (((c : ℤ) - 0).toNat) = c by simp]
        simp only [List.zipWith_cons_cons]
        rw [show (((c : ℤ) + 0).toNat) = c by simp, hcancel]
  · intro hfalse
    rw [hout]
    simp only [set_ND_volume_roi_with_bounding_box_range, hfalse, Bool.false_eq_true,
      if_false, NDArray.zeros]

theorem cwb_inverse_single {t : CropWithBoundingBox} {s : Sample} {p : CropParam}
    {a : NDArray}
    (hst : s.cwbParam = some (ParamStore.single p))
    (hpr : s.predict = some (Predict.single a)) :
    t.inverse_transform_for_prediction s =
      some { s with predict := some (Predict.single
        ((reconstructOne p.1 p.2.1 p.2.2 a).2.2.2)) } := by
  simp only [CropWithBoundingBox.inverse_transform_for_prediction, hst, hpr,
    Option.bind_eq_bind, Option.pure_def, Option.some_bind]

theorem rc_inverse_single {t : RandomCrop} {s : Sample} {p : CropParam}
    {a : NDArray}
    (hst : s.rcParam = some (ParamStore.single p))
    (hpr : s.predict = some (Predict.single a)) :
    t.inverse_transform_for_prediction s =
      some { s with predict := some (Predict.single
        ((reconstructOne p.1 p.2.1 p.2.2 a).2.2.2)) } := by
  simp only [RandomCrop.inverse_transform_for_prediction, hst, hpr,
    Option.bind_eq_bind, Option.pure_def, Option.some_bind]

/-- C1: applying a forward crop and then the inverse reconstruction on a
synthetic prediction equal to the cropped image with a batch axis
prepended yields an array equal to the original image inside the
recorded crop region (extended over the batch/channel axes exactly as
the inverse extends it) and zero outside it.  For `CropWithBoundingBox`
the stored spatial `crop_min` is required to be nonnegative (automatic
in every branch except an explicit negative `start`, and always true for
`RandomCrop`). -/
theorem c1_crop_inverse_roundtrip :
    (∀ (t : CropWithBoundingBox) (s s' : Sample) (C : ℕ) (sp : List ℕ)
      (cmSp cMSp : List ℤ),
      s.image.shape = C :: sp →
      t.call s = some s' →
      s'.cwbParam = some (ParamStore.single (C :: sp, 0 :: cmSp, (C : ℤ) :: cMSp)) →
      (∀ x ∈ cmSp, 0 ≤ x) →
      ∃ sOut, t.inverse_transform_for_prediction
          (setSinglePredict s' (withBatch s'.image)) = some sOut ∧
        ∀ idx : List ℕ,
          (inBox (0 :: 0 :: cmSp) (1 :: (C : ℤ) :: cMSp) idx = true →
            singlePredictData sOut idx = some (s.image.data idx.tail)) ∧
          (inBox (0 :: 0 :: cmSp) (1 :: (C : ℤ) :: cMSp) idx = false →
            singlePredictData sOut idx = some 0)) ∧
    (∀ (t : RandomCrop) (s s' : Sample) (draws1 draws2 : List ℤ) (r : ℚ)
      (C : ℕ) (sp : List ℕ) (cmSp cMSp : List ℤ),
      s.image.shape = C :: sp →
      t.call draws1 r draws2 s = some s' →
      s'.rcParam = some (ParamStore.single (C :: sp, 0 :: cmSp, (C : ℤ) :: cMSp)) →
      ∃ sOut, t.inverse_transform_for_prediction
          (setSinglePredict s' (withBatch s'.image)) = some sOut ∧
        ∀ idx : List ℕ,
          (inBox (0 :: 0 :: cmSp) (1 :: (C : ℤ) :: cMSp) idx = true →
            singlePredictData sOut idx = some (s.image.data idx.tail)) ∧
          (inBox (0 :: 0 :: cmSp) (1 :: (C : ℤ) :: cMSp) idx = false →
            singlePredictData sOut idx = some 0)) := by
  constructor
  · intro t s s' C sp cmSp cMSp himg hcall hparam hnn
    obtain ⟨bm, bM, cmSpA, cMSpA, hbb, hsb, hs'⟩ := cwb_call_some_inv hcall
    have hparamA := @cwbResult_param s cmSpA cMSpA C sp himg
    rw [← hs'] at hparamA
    rw [hparamA] at hparam
    simp only [Option.some.injEq, ParamStore.single.injEq, Prod.mk.injEq] at hparam
    have hcmeq : cmSpA = cmSp := (List.cons.inj hparam.2.1).2
    have hcMeq : cMSpA = cMSp := (List.cons.inj hparam.2.2).2
    have himage : s'.image =
        crop_ND_volume_with_bounding_box s.image (0 :: cmSp) ((C : ℤ) :: cMSp) := by
      rw [hs', cwbResult_image himg, hcmeq, hcMeq]
    have hstored : (setSinglePredict s' (withBatch s'.image)).cwbParam =
        some (ParamStore.single (C :: sp, 0 :: cmSp, (C : ℤ) :: cMSp)) := by
      rw [setSinglePredict]
      rw [hparamA, hcmeq, hcMeq]
    have hinv := cwb_inverse_single (t := t) hstored rfl
    refine ⟨_, hinv, ?_⟩
    intro idx
    have hcore := reconstruct_roundtrip s.image C sp cmSp cMSp hnn idx
    constructor
    · intro hin
      have hval := hcore.1 hin
      simp only [singlePredictData, himage]
      rw [hval]
    · intro hfalse
      have hval := hcore.2 hfalse
      simp only [singlePredictData, himage]
      rw [hval]
  · intro t s s' draws1 draws2 r C sp cmSp cMSp himg hcall hparam
    obtain ⟨cmSpA, cMSpA, hdim0, hcm, hcM, hs'⟩ := rc_call_some_inv hcall
    have hparamA := @rcResult_param s cmSpA cMSpA C sp himg
    rw [← hs'] at hparamA
    rw [hparamA] at hparam
    simp only [Option.some.injEq, ParamStore.single.injEq, Prod.mk.injEq] at hparam
    have hcmeq : cmSpA = cmSp := (List.cons.inj hparam.2.1).2
    have hcMeq : cMSpA = cMSp := (List.cons.inj hparam.2.2).2
    have hnn : ∀ x ∈ cmSp, 0 ≤ x := by
      rw [← hcmeq]
      obtain ⟨hlcm, hbnd⟩ := spatialCropMin_some_inv hcm
      intro x hx
      obtain ⟨j, hj, hjx⟩ := List.mem_iff_getElem.mp hx
      have hb := (hbnd j (by omega)).1
      rw [getD_of_getElem?_some (List.getElem?_eq_getElem hj)] at hb
      omega
    have himage : s'.image =
        crop_ND_volume_with_bounding_box s.image (0 :: cmSp) ((C : ℤ) :: cMSp) := by
      rw [hs', rcResult_image himg, hcmeq, hcMeq]
    have hstored : (setSinglePredict s' (withBatch s'.image)).rcParam =
        some (ParamStore.single (C :: sp, 0 :: cmSp, (C : ℤ) :: cMSp)) := by
      rw [setSinglePredict]
      rw [hparamA, hcmeq, hcMeq]
    have hinv := rc_inverse_single (t := t) hstored rfl
    refine ⟨_, hinv, ?_⟩
    intro idx
    have hcore := reconstruct_roundtrip s.image C sp cmSp cMSp hnn idx
    constructor
    · intro hin
      have hval := hcore.1 hin
      simp only [singlePredictData, himage]
      rw [hval]
    · intro hfalse
      have hval := hcore.2 hfalse
      simp only [singlePredictData, himage]
      rw [hval]

theorem c1_crop_inverse_roundtrip_witness :
    (Option.bind
      (cwbCentered2.inverse_transform_for_prediction
        (setSinglePredict (cwbResult sampleS [2] [4])
          (withBatch (cwbResult sampleS [2] [4]).image)))
      (fun so => singlePredictData so [0, 0, 2]) = some (5 : ℤ)) ∧
    (Option.bind
      (cwbCentered2.inverse_transform_for_prediction
        (setSinglePredict (cwbResult sampleS [2] [4])
          (withBatch (cwbResult sampleS [2] [4]).image)))
      (fun so => singlePredictData so [0, 0, 0]) = some (0 : ℤ)) ∧
    (Option.bind
      (rcPlain2.inverse_transform_for_prediction
        (setSinglePredict (rcResult sampleA [1] [3])
          (withBatch (rcResult sampleA [1] [3]).image)))
      (fun so => singlePredictData so [0, 0, 1]) = some (20 : ℤ)) ∧
    (Option.bind
      (rcPlain2.inverse_transform_for_prediction
        (setSinglePredict (rcResult sampleA [1] [3])
          (withBatch (rcResult sampleA [1] [3]).image)))
      (fun so => singlePredictData so [0, 0, 0]) = some (0 : ℤ)) := by
  obtain ⟨sOutC, hinvC, hptC⟩ :=
    c1_crop_inverse_roundtrip.1 cwbCentered2 sampleS (cwbResult sampleS [2] [4])
      1 [3] [2] [4] rfl rfl rfl (by decide)
  obtain ⟨sOutR, hinvR, hptR⟩ :=
    c1_crop_inverse_roundtrip.2 rcPlain2 sampleA (rcResult sampleA [1] [3])
      [1] [] 0 1 [3] [1] [3] rfl rfl rfl
  refine ⟨?_, ?_, ?_, ?_⟩
  · rw [hinvC, Option.some_bind, (hptC [0, 0, 2]).1 (by decide)]
    decide
  · rw [hinvC, Option.some_bind, (hptC [0, 0, 0]).2 (by decide)]
  · rw [hinvR, Option.some_bind, (hptR [0, 0, 1]).1 (by decide)]
    decide
  · rw [hinvR, Option.some_bind, (hptR [0, 0, 0]).2 (by decide)]
